import Mathlib

/-!
# CPU math kernels of `core/util/math_cpu.cc` and the MKL-DNN kernel adapters

A shallow embedding of the functions of `onnxruntime::Math` (Gemm, Gemv, the
row/column broadcast family, BiasCHW, CopyMatrix) and of the dispatch logic of the
MKL-DNN `Sum`, `Relu` and `Conv` kernels.

Conventions of the embedding:

* a buffer reached through a pointer is the function giving the item at each
  offset; `const` inputs are values, the output buffer is passed in and returned;
  input and output buffers are distinct objects, except that a coefficient-wise
  assignment may be given its own output as an operand: each coefficient is then
  read before it is written, so the operand is the old content;
* `float` is an arbitrary scalar type carrying `0`, `+`, `*`; the functional
  theorems are stated over a commutative ring (exact arithmetic);
* sizes are natural numbers and index arithmetic is exact (signed overflow is
  undefined and lies outside the domain of the functions); the narrowing of the
  `int64_t` sizes of Gemm to `int` in its MKL-DNN branch is modelled by `toInt`;
* a `LOTUS_THROW` is recorded in the outcome next to the buffer as it stands when
  the exception leaves the function.
-/

namespace onnxruntime

/-- Contents of the memory reached through a pointer, by item offset. -/
abbrev Buf (α : Type) := Nat → α

/-- Store: `p[i] = v`. -/
def Buf.store {α : Type} (p : Buf α) (i : Nat) (v : α) : Buf α :=
  fun k => if k = i then v else p k

/-- Counted loop `for (t = 0; t < n; ++t) s = body t s`. -/
def forLoop {σ : Type} : Nat → (Nat → σ → σ) → σ → σ
  | 0, _, s => s
  | n + 1, body, s => body n (forLoop n body s)

/-! ## Eigen maps and expressions -/

/-- An Eigen matrix expression: its shape and its coefficient at (row, column). -/
structure MatExpr (α : Type) where
  rows : Nat
  cols : Nat
  coeff : Nat → Nat → α

/-- Modelled from the spec: the Eigen map types are declared in `core/util/math_cpuonly.h`,
outside the sources. Read-only column-major map `ConstEigenMatrixMap<T>(p, rows, cols)`:
coefficient (r, c) is `p[c * rows + r]` ("eigen which is column major"). -/
def ConstEigenMatrixMap {α : Type} (p : Buf α) (rows cols : Nat) : MatExpr α :=
  ⟨rows, cols, fun r c => p (c * rows + r)⟩

/-- Read-only vector map `ConstEigenVectorMap<T>(p, n)`, a column of `n` rows. -/
def ConstEigenVectorMap {α : Type} (p : Buf α) (n : Nat) : MatExpr α :=
  ⟨n, 1, fun r _ => p r⟩

/-- Eigen `.transpose()`. -/
def MatExpr.transpose {α : Type} (x : MatExpr α) : MatExpr α :=
  ⟨x.cols, x.rows, fun r c => x.coeff c r⟩

/-- Inner product of the first `n` entries, accumulated from index 0 upwards. -/
def dot {α : Type} [Zero α] [Add α] [Mul α] (n : Nat) (u v : Nat → α) : α :=
  forLoop n (fun k acc => acc + u k * v k) 0

/-- Eigen matrix product `x * y`. -/
def MatExpr.mul {α : Type} [Zero α] [Add α] [Mul α] (x y : MatExpr α) : MatExpr α :=
  ⟨x.rows, y.cols, fun r c => dot x.cols (fun k => x.coeff r k) (fun k => y.coeff k c)⟩

/-- Scalar multiple `alpha * x`. -/
def MatExpr.scale {α : Type} [Mul α] (alpha : α) (x : MatExpr α) : MatExpr α :=
  ⟨x.rows, x.cols, fun r c => alpha * x.coeff r c⟩

/-- Coefficient-wise update of the writable column-major map with outer stride `ld`
over `p` (`EigenMatrixMap<T>(p, rows, cols)` when `ld = rows`): coefficient (r, c),
stored at `p[c * ld + r]`, becomes `f r c` of its current value. Columns are visited
in order, rows within a column in order. -/
def stridedUpdate {α : Type} (p : Buf α) (rows cols ld : Nat) (f : Nat → Nat → α → α) : Buf α :=
  forLoop cols (fun c q =>
    forLoop rows (fun r q1 => q1.store (c * ld + r) (f r c (q1 (c * ld + r)))) q) p

/-- Update through the contiguous map `EigenMatrixMap<T>(p, rows, cols)`. -/
def mapUpdate {α : Type} (p : Buf α) (rows cols : Nat) (f : Nat → Nat → α → α) : Buf α :=
  stridedUpdate p rows cols rows f

/-- Eigen `m.setZero()` on the map over `p`. -/
def setZero {α : Type} [Zero α] (p : Buf α) (rows cols : Nat) : Buf α :=
  mapUpdate p rows cols (fun _ _ _ => 0)

/-- Eigen `m *= beta` on the map over `p`. -/
def mulAssign {α : Type} [Mul α] (p : Buf α) (rows cols : Nat) (beta : α) : Buf α :=
  mapUpdate p rows cols (fun _ _ v => v * beta)

/-- Eigen `m.noalias() += e` on the map over `p`. -/
def addAssign {α : Type} [Add α] (p : Buf α) (rows cols : Nat) (e : MatExpr α) : Buf α :=
  mapUpdate p rows cols (fun r c v => v + e.coeff r c)

/-! ## Gemm and Gemv -/

/-- Modelled from the spec: the enumeration CBLAS_TRANSPOSE is declared in
`core/util/math.h`, outside the sources. The code tells CblasNoTrans and CblasTrans apart
from every other value, which reaches the `default` label of a switch. -/
inductive CBLAS_TRANSPOSE
  | CblasNoTrans
  | CblasTrans
  | CblasConjTrans
  deriving DecidableEq, Repr

open CBLAS_TRANSPOSE

/-- What a call leaves behind: the output buffer and the exception thrown, if any. -/
structure Outcome (α : Type) where
  mem : Buf α
  thrown : Option String

namespace Math

/-- The Eigen branch of `Gemm<float, CPUMathUtil>` (neither USE_MLAS nor USE_MKLDNN). -/
def Gemm {α : Type} [Zero α] [Add α] [Mul α] [DecidableEq α]
    (TransA TransB : CBLAS_TRANSPOSE) (M N K : Nat) (alpha : α) (A B : Buf α)
    (beta : α) (C : Buf α) : Outcome α :=
  let C_mat := if beta = 0 then setZero C N M else mulAssign C N M beta
  match TransA with
  | CblasNoTrans =>
    match TransB with
    | CblasNoTrans =>
      ⟨addAssign C_mat N M (MatExpr.scale alpha
        ((ConstEigenMatrixMap B N K).mul (ConstEigenMatrixMap A K M))), none⟩
    | CblasTrans =>
      ⟨addAssign C_mat N M (MatExpr.scale alpha
        ((ConstEigenMatrixMap B K N).transpose.mul (ConstEigenMatrixMap A K M))), none⟩
    | _ => ⟨C_mat, some "CblasNoTrans Unexpected CBLAS_TRANSPOSE for TransB of "⟩
  | CblasTrans =>
    match TransB with
    | CblasNoTrans =>
      ⟨addAssign C_mat N M (MatExpr.scale alpha
        ((ConstEigenMatrixMap B N K).mul (ConstEigenMatrixMap A M K).transpose)), none⟩
    | CblasTrans =>
      ⟨addAssign C_mat N M (MatExpr.scale alpha
        ((ConstEigenMatrixMap B K N).transpose.mul (ConstEigenMatrixMap A M K).transpose)), none⟩
    | _ => ⟨C_mat, some "CblasTrans Unexpected CBLAS_TRANSPOSE for TransB of "⟩
  | _ => ⟨C_mat, some "Unexpected CBLAS_TRANSPOSE for TransA of "⟩

/-- The body of `Gemv<float, CPUMathUtil>`. -/
def Gemv {α : Type} [Zero α] [Add α] [Mul α] [DecidableEq α]
    (TransA : CBLAS_TRANSPOSE) (M N : Nat) (alpha : α) (A x : Buf α)
    (beta : α) (y : Buf α) : Outcome α :=
  let len := if TransA = CblasNoTrans then M else N
  let y_vec := if beta = 0 then setZero y len 1 else mulAssign y len 1 beta
  match TransA with
  | CblasNoTrans =>
    ⟨addAssign y_vec len 1 (MatExpr.scale alpha
      ((ConstEigenMatrixMap A N M).transpose.mul (ConstEigenVectorMap x N))), none⟩
  | CblasTrans =>
    ⟨addAssign y_vec len 1 (MatExpr.scale alpha
      ((ConstEigenMatrixMap A N M).mul (ConstEigenVectorMap x M))), none⟩
  | _ => ⟨y_vec, some "Gemv float found an unexpected CBLAS_TRANSPOSE input of"⟩

end Math

/-! ## The MKL-DNN branch of Gemm -/

/-- The narrowing cast `(int)v` of a 64-bit value: its low 32 bits read as a two's
complement number. -/
def toInt (v : Int) : Int := (v + 2147483648) % 4294967296 - 2147483648

/-- Modelled from the spec: the status type of the MKL-DNN C API, declared in the
library's `mkldnn.h`; the caller tells `mkldnn_success` from everything else. -/
inductive mkldnn_status_t
  | mkldnn_success
  | mkldnn_invalid_arguments
  deriving DecidableEq, Repr

open mkldnn_status_t

/-- Modelled from the spec: the reference column-major sgemm that the MKL-DNN branch
calls (`mkldnn_sgemm` is a routine of the external library, absent from the sources).
With opA the m x k matrix read from `A` with leading dimension `lda` (element (i, l) at
`A[l*lda + i]` for "N", at `A[i*lda + l]` otherwise) and opB the k x n matrix read from
`B` likewise, every element (i, j) of the m x n matrix stored at `C[j*ldc + i]` becomes
alpha * sum_l opA(i,l) * opB(l,j) + beta * C[j*ldc + i]. A negative size or leading
dimension is rejected with a status other than success and leaves C alone. -/
def mkldnn_sgemm {α : Type} [Zero α] [Add α] [Mul α]
    (transa transb : String) (m n k : Int) (alpha : α) (A : Buf α) (lda : Int)
    (B : Buf α) (ldb : Int) (beta : α) (C : Buf α) (ldc : Int) : mkldnn_status_t × Buf α :=
  if m < 0 ∨ n < 0 ∨ k < 0 ∨ lda < 0 ∨ ldb < 0 ∨ ldc < 0 then
    (mkldnn_invalid_arguments, C)
  else
    (mkldnn_success,
      stridedUpdate C m.toNat n.toNat ldc.toNat (fun i j c =>
        alpha * dot k.toNat
          (fun l => if transa = "N" then A (l * lda.toNat + i) else A (i * lda.toNat + l))
          (fun l => if transb = "N" then B (j * ldb.toNat + l) else B (l * ldb.toNat + j))
        + beta * c))

namespace Math

/-- The USE_MKLDNN branch of `Gemm<float, CPUMathUtil>`: the sizes are narrowed to `int`
and the operands are swapped for the column-major routine. -/
def Gemm_USE_MKLDNN {α : Type} [Zero α] [Add α] [Mul α]
    (TransA TransB : CBLAS_TRANSPOSE) (M N K : Nat) (alpha : α) (A B : Buf α)
    (beta : α) (C : Buf α) : Outcome α :=
  let lda := toInt (if TransA = CblasTrans then (M : Int) else (K : Int))
  let ldb := toInt (if TransB = CblasTrans then (K : Int) else (N : Int))
  let M_ := toInt (M : Int)
  let N_ := toInt (N : Int)
  let K_ := toInt (K : Int)
  let r := mkldnn_sgemm (if TransB = CblasNoTrans then "N" else "T")
    (if TransA = CblasNoTrans then "N" else "T")
    N_ M_ K_ alpha B ldb A lda beta C N_
  if r.1 ≠ mkldnn_success then ⟨r.2, some "mkldnn_sgemm failed with status: "⟩
  else ⟨r.2, none⟩

end Math

/-! ## Row and column broadcasts -/

/-- Read-only array map `ConstEigenArrayMap<T>(p, rows, cols)`, stored like the matrix
map: coefficient (r, c) is `p[c * rows + r]`. -/
def ConstEigenArrayMap {α : Type} (p : Buf α) (rows cols : Nat) : MatExpr α :=
  ⟨rows, cols, fun r c => p (c * rows + r)⟩

/-- Read-only array map `ConstEigenVectorArrayMap<T>(p, n)`, a column of `n` rows. -/
def ConstEigenVectorArrayMap {α : Type} (p : Buf α) (n : Nat) : MatExpr α :=
  ⟨n, 1, fun r _ => p r⟩

/-- Eigen `m.colwise() expr v` for a column vector `v`: coefficient (r, c) of `m` is
combined with entry `r` of `v`. -/
def MatExpr.colwise {α : Type} (expr : α → α → α) (m v : MatExpr α) : MatExpr α :=
  ⟨m.rows, m.cols, fun r c => expr (m.coeff r c) (v.coeff r 0)⟩

/-- Eigen `m = e` on the writable array map over `p`. -/
def assign {α : Type} (p : Buf α) (rows cols : Nat) (e : MatExpr α) : Buf α :=
  mapUpdate p rows cols (fun r c _ => e.coeff r c)

/-- Eigen `m.colwise() expr= v` on the writable array map over `p`, `v` a column. -/
def colwiseAssign {α : Type} (expr : α → α → α) (p : Buf α) (rows cols : Nat)
    (v : MatExpr α) : Buf α :=
  mapUpdate p rows cols (fun r _ old => expr old (v.coeff r 0))

/-- Eigen `m.rowwise() expr= w` on the writable array map over `p`, `w` a row. -/
def rowwiseAssign {α : Type} (expr : α → α → α) (p : Buf α) (rows cols : Nat)
    (w : MatExpr α) : Buf α :=
  mapUpdate p rows cols (fun _ c old => expr old (w.coeff 0 c))

namespace Math

/-- The three-buffer `Funcname##ToRow` of DELEGATE_BROADCAST_BINARY_FUNCTION(T, Funcname,
expr), for any element type and operator. -/
def FuncnameToRow {α : Type} (expr : α → α → α) (M N : Nat) (a b y : Buf α) : Buf α :=
  assign y N M
    (MatExpr.colwise expr (ConstEigenArrayMap a N M) (ConstEigenVectorArrayMap b N))

/-- The in-place `Funcname##ToRow` of the same macro. -/
def FuncnameToRow_inplace {α : Type} (expr : α → α → α) (M N : Nat) (x y : Buf α) : Buf α :=
  colwiseAssign expr y N M (ConstEigenVectorArrayMap x N)

/-- The in-place `Funcname##ToCol` of the same macro. -/
def FuncnameToCol {α : Type} (expr : α → α → α) (M N : Nat) (x y : Buf α) : Buf α :=
  rowwiseAssign expr y N M (ConstEigenVectorArrayMap x M).transpose

/-- DEFINE_BROADCAST_BINARY_FUNCTION(Add, +), three-buffer row form. -/
def AddToRow {α : Type} [Add α] (M N : Nat) (a b y : Buf α) : Buf α :=
  FuncnameToRow (fun u v => u + v) M N a b y

/-- DEFINE_BROADCAST_BINARY_FUNCTION(Sub, -), three-buffer row form. -/
def SubToRow {α : Type} [Sub α] (M N : Nat) (a b y : Buf α) : Buf α :=
  FuncnameToRow (fun u v => u - v) M N a b y

/-- DEFINE_BROADCAST_BINARY_FUNCTION(Mul, *), three-buffer row form. -/
def MulToRow {α : Type} [Mul α] (M N : Nat) (a b y : Buf α) : Buf α :=
  FuncnameToRow (fun u v => u * v) M N a b y

/-- DEFINE_BROADCAST_BINARY_FUNCTION(Div, /), three-buffer row form. -/
def DivToRow {α : Type} [Div α] (M N : Nat) (a b y : Buf α) : Buf α :=
  FuncnameToRow (fun u v => u / v) M N a b y

/-- DEFINE_BROADCAST_BINARY_FUNCTION(Add, +), column form. -/
def AddToCol {α : Type} [Add α] (M N : Nat) (x y : Buf α) : Buf α :=
  FuncnameToCol (fun u v => u + v) M N x y

/-- DEFINE_BROADCAST_BINARY_FUNCTION(Sub, -), column form. -/
def SubToCol {α : Type} [Sub α] (M N : Nat) (x y : Buf α) : Buf α :=
  FuncnameToCol (fun u v => u - v) M N x y

/-- DEFINE_BROADCAST_BINARY_FUNCTION(Mul, *), column form. -/
def MulToCol {α : Type} [Mul α] (M N : Nat) (x y : Buf α) : Buf α :=
  FuncnameToCol (fun u v => u * v) M N x y

/-- DEFINE_BROADCAST_BINARY_FUNCTION(Div, /), column form. -/
def DivToCol {α : Type} [Div α] (M N : Nat) (x y : Buf α) : Buf α :=
  FuncnameToCol (fun u v => u / v) M N x y

/-- The non-NEON body of `BiasCHW<float, CPUMathUtil>`; the loop state is the memory under
`image` together with the distance the pointer `image` has advanced. -/
def BiasCHW {α : Type} [Add α] (bias : Buf α) (bias_channels image_size : Nat)
    (image : Buf α) : Buf α :=
  (forLoop bias_channels (fun c (s : Buf α × Nat) =>
    let b := bias c
    (forLoop image_size (fun i q => q.store (s.2 + i) (q (s.2 + i) + b)) s.1,
      s.2 + image_size)) (image, 0)).1

end Math

/-- `memcpy(dst + d, src + s, n)` on non-overlapping byte buffers. -/
def memcpy {α : Type} (dst : Buf α) (d : Nat) (src : Buf α) (s : Nat) (n : Nat) : Buf α :=
  forLoop n (fun t q => q.store (d + t) (src (s + t))) dst

/-- The callback type `TypedCopy`, called as `copy(src, dst, n)` with pointers into the
two buffers; it returns the destination memory. -/
abbrev TypedCopy (α : Type) := Buf α → Nat → Buf α → Nat → Nat → Buf α

namespace Math

/-- The row-by-row loop of `CopyMatrix<CPUMathUtil>`; buffers are indexed in bytes. -/
def CopyMatrix_rows {α : Type} (itemsize M N : Nat) (A : Buf α) (lda : Nat) (B : Buf α)
    (ldb : Nat) (copy : Option (TypedCopy α)) : Buf α :=
  forLoop M (fun i q =>
    match copy with
    | some cp => cp A (lda * i * itemsize) q (ldb * i * itemsize) N
    | none => memcpy q (ldb * i * itemsize) A (lda * i * itemsize) (itemsize * N)) B

/-- The body of `CopyMatrix<CPUMathUtil>`; buffers are indexed in bytes. -/
def CopyMatrix {α : Type} (itemsize M N : Nat) (A : Buf α) (lda : Nat) (B : Buf α)
    (ldb : Nat) (copy : Option (TypedCopy α)) : Buf α :=
  if lda = N ∧ ldb = N then
    match copy with
    | some cp => cp A 0 B 0 (N * M)
    | none => memcpy B 0 A 0 (itemsize * N * M)
  else
    CopyMatrix_rows itemsize M N A lda B ldb copy

end Math

/-! ## The MKL-DNN Sum and Relu kernels -/

namespace mkl_dnn

/-- Modelled from the spec: `TensorShape` is declared in the framework headers, outside
the sources; here it is the list of dimensions `GetDims()`, whose length is
`NumDimensions()`. -/
abbrev TensorShape := List Int

/-- Modelled from the spec: `Tensor` is declared in the framework headers; the dispatch of
the kernels looks at its shape only. -/
structure Tensor where
  Shape : TensorShape
  deriving DecidableEq, Repr

/-- Modelled from the spec: `common::Status` is declared in the framework headers; a
kernel returns OK, or category ONNXRUNTIME with code FAIL and a message. -/
inductive Status
  | OK
  | FAIL (msg : String)
  deriving DecidableEq, Repr

/-- Modelled from the spec: the layouts of `mkldnn::memory::format_tag`, declared in the
library's headers, that the kernels name. -/
inductive format_tag
  | any
  | x
  | nc
  | ntc
  | nchw
  | ncdhw
  deriving DecidableEq, Repr

/-- The parameter block `SumParams`. -/
structure SumParams where
  src_dims : List TensorShape
  dst_dim : TensorShape
  num_inputs : Int
  num_dimensions : Int
  deriving DecidableEq, Repr

/-- What a kernel does to its surroundings, in order: it asks the context for an output
of a given shape, hands the call to the CPU kernel of the same operator, or obtains an
MKL-DNN primitive from its pool (for Relu together with the source layout the primitive
is initialised with). -/
inductive KernelEvent
  | Output (index : Nat) (shape : TensorShape)
  | cpu_Compute
  | SumPrimitivePool_Get (params : SumParams)
  | ReluPrimitivePool_Get (src_dims : TensorShape) (fmt : format_tag)
  deriving DecidableEq, Repr

/-- Outcome of obtaining and running a primitive inside the `try` block. -/
inductive PrimitiveOutcome
  | computed
  | null
  | error (msg : String)
  deriving DecidableEq, Repr

/-- A run of `Compute`: the events in order and either the returned Status or the
message of the exception that left the function. -/
structure KernelRun where
  events : List KernelEvent
  result : Except String Status

/-- The loop of `Sum<T>::Compute` over the inputs: the dims gathered so far, or `none`
once an absent input has made the function return. -/
def Sum.gather (Input : Nat → Option Tensor) (num_inputs : Nat) : Option (List TensorShape) :=
  forLoop num_inputs (fun i acc =>
    match acc with
    | none => none
    | some src_dims =>
      match Input i with
      | none => none
      | some X => some (src_dims ++ [X.Shape])) (some [])

/-- The body of `Sum<T>::Compute`. `num_inputs` is the local of that name, the node's
input count as an `int`; `Input i` is `context->Input<Tensor>(i)`; `cpu_Sum_6` is what
`onnxruntime::Sum_6<T>::Compute(context)` returns; `primitive` is the outcome of the
pool lookup and the primitive's run. -/
def Sum.Compute (num_inputs : Int) (Input : Nat → Option Tensor) (cpu_Sum_6 : Status)
    (primitive : SumParams → PrimitiveOutcome) : KernelRun :=
  if ¬ (num_inputs > 0) then
    ⟨[], Except.error "MKLDNN Sum kernel: Must have at least one input"⟩
  else if num_inputs = 1 then
    ⟨[KernelEvent.cpu_Compute], Except.ok cpu_Sum_6⟩
  else
    match Input 0 with
    | none => ⟨[], Except.ok (Status.FAIL "input count mismatch")⟩
    | some X1 =>
      let Y : Tensor := ⟨X1.Shape⟩
      let dimensions : Int := (X1.Shape.length : Int)
      match Sum.gather Input num_inputs.toNat with
      | none =>
        ⟨[KernelEvent.Output 0 X1.Shape], Except.ok (Status.FAIL "input count mismatch")⟩
      | some src_dims =>
        let parameters : SumParams := ⟨src_dims, Y.Shape, num_inputs, dimensions⟩
        ⟨[KernelEvent.Output 0 X1.Shape, KernelEvent.SumPrimitivePool_Get parameters],
          match primitive parameters with
          | PrimitiveOutcome.computed => Except.ok Status.OK
          | PrimitiveOutcome.null => Except.ok (Status.FAIL "sum_primitive != nullptr")
          | PrimitiveOutcome.error msg => Except.ok (Status.FAIL msg)⟩

/-- The layout chosen by the switch of `ReluPrimitive::Initialize` on
`params.src_dims.size()`. -/
def ReluPrimitive.Initialize (src_dims : TensorShape) : format_tag :=
  match src_dims.length with
  | 1 => format_tag.x
  | 2 => format_tag.nc
  | 3 => format_tag.ntc
  | 4 => format_tag.nchw
  | 5 => format_tag.ncdhw
  | _ => format_tag.any

/-- The body of `Relu<T>::Compute`. `X` is input 0; `cpu_Relu` is what
`onnxruntime::Relu<T>::Compute(context)` returns; `primitive` is the outcome of running the
primitive of the pool, which is constructed from the source dims and so carries the layout
`ReluPrimitive::Initialize` picks for them. -/
def Relu.Compute (X : Tensor) (cpu_Relu : Status)
    (primitive : TensorShape → format_tag → PrimitiveOutcome) : KernelRun :=
  let x_dims := X.Shape
  if x_dims.length > 5 then
    ⟨[KernelEvent.Output 0 X.Shape, KernelEvent.cpu_Compute], Except.ok cpu_Relu⟩
  else
    let fmt := ReluPrimitive.Initialize x_dims
    ⟨[KernelEvent.Output 0 X.Shape, KernelEvent.ReluPrimitivePool_Get x_dims fmt],
      match primitive x_dims fmt with
      | PrimitiveOutcome.error msg => Except.ok (Status.FAIL msg)
      | _ => Except.ok Status.OK⟩

end mkl_dnn

/-! ## The MKL-DNN Conv kernel: kernel-shape validation -/

namespace mkl_dnn

/-- The statement at which `Conv<T>::Compute` returns. `index_out_of_range i` stands for an
evaluation of `W->Shape()[i + 2]` beyond the dimensions of W, where the function has no
defined behaviour. -/
inductive ConvReturn
  | ValidateInputShape_error (s : Status)
  | ComputeKernelShape_error (s : Status)
  | cpu_Compute (s : Status)
  | num_dims_mismatch
  | shape_mismatch (i : Nat)
  | index_out_of_range (i : Nat)
  | rest (s : Status)
  deriving DecidableEq, Repr

/-- The Status handed back at each return statement; none where the behaviour is
undefined. -/
def ConvReturn.status : ConvReturn → Option Status
  | ConvReturn.ValidateInputShape_error s => some s
  | ConvReturn.ComputeKernelShape_error s => some s
  | ConvReturn.cpu_Compute s => some s
  | ConvReturn.num_dims_mismatch =>
    some (Status.FAIL "kernel_shape num_dims is not compatible with W num_dims.")
  | ConvReturn.shape_mismatch _ =>
    some (Status.FAIL "kernel_shape is not compatible with W shape.")
  | ConvReturn.index_out_of_range _ => none
  | ConvReturn.rest s => some s

/-- The loop `for (size_t i = 0; i < kernel_rank; ++i)` of `Conv<T>::Compute` comparing
`kernel_shape[i]` with `W->Shape()[i + 2]`: `none` while no iteration has returned. -/
def Conv.check_kernel_shape (kernel_shape W_dims : TensorShape) (kernel_rank : Nat) :
    Option ConvReturn :=
  forLoop kernel_rank (fun i acc =>
    match acc with
    | some r => some r
    | none =>
      match kernel_shape.get? i, W_dims.get? (i + 2) with
      | some k, some w => if k ≠ w then some (ConvReturn.shape_mismatch i) else none
      | _, _ => some (ConvReturn.index_out_of_range i)) none

/-- The body of `Conv<T>::Compute` from the call of ValidateInputShape on (the statements
before it only read dimension 0 of X and W). `W` is input 1; `ValidateInputShape` is the
Status of `ConvBase::ValidateInputShape(X, W)`; `ComputeKernelShape` is the Status of
`ConvBase::ComputeKernelShape(W->Shape(), kernel_shape)` with the kernel_shape it fills
in; `cpu_Conv` is what `onnxruntime::Conv<T>::Compute(context)` returns; `rest` is what
the remainder of the function returns (output-shape inference, allocation, and the
primitive inside the `try` block). -/
def Conv.Compute (W : Tensor) (ValidateInputShape : Status)
    (ComputeKernelShape : Status × TensorShape) (cpu_Conv : Status) (rest : Status) :
    ConvReturn :=
  if ValidateInputShape ≠ Status.OK then
    ConvReturn.ValidateInputShape_error ValidateInputShape
  else if ComputeKernelShape.1 ≠ Status.OK then
    ConvReturn.ComputeKernelShape_error ComputeKernelShape.1
  else
    let kernel_shape := ComputeKernelShape.2
    let kernel_rank := kernel_shape.length
    if kernel_rank > 3 then
      ConvReturn.cpu_Compute cpu_Conv
    else if kernel_rank + 2 ≠ W.Shape.length then
      ConvReturn.num_dims_mismatch
    else
      match Conv.check_kernel_shape kernel_shape W.Shape kernel_rank with
      | some r => r
      | none => ConvReturn.rest rest

end mkl_dnn

/-! ## Loop lemmas -/

theorem Buf.store_same {α : Type} (p : Buf α) (i : Nat) (v : α) : p.store i v i = v := by
  simp [Buf.store]

theorem Buf.store_other {α : Type} (p : Buf α) (i k : Nat) (v : α) (h : k ≠ i) :
    p.store i v k = p k := by
  simp [Buf.store, h]

/-- One pass over `n` consecutive items starting at `base`. -/
theorem rowLoop_apply {α : Type} (n base : Nat) (g : Nat → α → α) (q : Buf α) (k : Nat) :
    forLoop n (fun r q1 => q1.store (base + r) (g r (q1 (base + r)))) q k
      = if base ≤ k ∧ k < base + n then g (k - base) (q k) else q k := by
  induction n with
  | zero =>
    have h0 : ¬ (base ≤ k ∧ k < base + 0) := by omega
    rw [if_neg h0]
    rfl
  | succ n ih =>
    simp only [forLoop]
    by_cases hk : k = base + n
    · subst hk
      rw [Buf.store_same, ih]
      have h1 : ¬ (base ≤ base + n ∧ base + n < base + n) := by omega
      have h2 : base ≤ base + n ∧ base + n < base + (n + 1) := by omega
      rw [if_neg h1, if_pos h2, Nat.add_sub_cancel_left]
    · rw [Buf.store_other _ _ _ _ hk, ih]
      by_cases h : base ≤ k ∧ k < base + n
      · have h2 : base ≤ k ∧ k < base + (n + 1) := by omega
        rw [if_pos h, if_pos h2]
      · have h2 : ¬ (base ≤ k ∧ k < base + (n + 1)) := by omega
        rw [if_neg h, if_neg h2]


/-- Items outside every visited row segment keep their value. -/
theorem stridedUpdate_frame {α : Type} (p : Buf α) (rows ld : Nat) (f : Nat → Nat → α → α)
    (k : Nat) (cols : Nat) (h : ∀ c, c < cols → ¬ (c * ld ≤ k ∧ k < c * ld + rows)) :
    stridedUpdate p rows cols ld f k = p k := by
  induction cols with
  | zero => rfl
  | succ n ih =>
    have hn := h n (Nat.lt_succ_self n)
    have ih1 := ih (fun c hc => h c (Nat.lt_succ_of_lt hc))
    unfold stridedUpdate at ih1 ⊢
    simp only [forLoop]
    rw [rowLoop_apply, if_neg hn]
    exact ih1

/-- Coefficient (r, c) of the map receives `f r c` of its previous value. -/
theorem stridedUpdate_block {α : Type} (p : Buf α) (rows ld : Nat) (f : Nat → Nat → α → α)
    (hld : rows ≤ ld) (r c : Nat) (hr : r < rows) (cols : Nat) (hc : c < cols) :
    stridedUpdate p rows cols ld f (c * ld + r) = f r c (p (c * ld + r)) := by
  induction cols with
  | zero => omega
  | succ n ih =>
    by_cases hcn : c = n
    · subst hcn
      have hfr := stridedUpdate_frame p rows ld f (c * ld + r) c (by
        intro c1 hc1
        have h1 : (c1 + 1) * ld ≤ c * ld := Nat.mul_le_mul_right ld hc1
        rw [Nat.add_mul, Nat.one_mul] at h1
        omega)
      unfold stridedUpdate at hfr ⊢
      simp only [forLoop]
      rw [rowLoop_apply, if_pos (by omega), Nat.add_sub_cancel_left, hfr]
    · have hlt : c < n := by omega
      have ih1 := ih hlt
      have h1 : (c + 1) * ld ≤ n * ld := Nat.mul_le_mul_right ld hlt
      rw [Nat.add_mul, Nat.one_mul] at h1
      unfold stridedUpdate at ih1 ⊢
      simp only [forLoop]
      rw [rowLoop_apply, if_neg (by omega)]
      exact ih1

theorem mapUpdate_block {α : Type} (p : Buf α) (rows cols : Nat) (f : Nat → Nat → α → α)
    (r c : Nat) (hr : r < rows) (hc : c < cols) :
    mapUpdate p rows cols f (c * rows + r) = f r c (p (c * rows + r)) :=
  stridedUpdate_block p rows rows f (Nat.le_refl rows) r c hr cols hc

/-- Items at or beyond `rows * cols` are not touched by a contiguous map. -/
theorem mapUpdate_frame {α : Type} (p : Buf α) (rows cols : Nat) (f : Nat → Nat → α → α)
    (k : Nat) (hk : cols * rows ≤ k) : mapUpdate p rows cols f k = p k := by
  apply stridedUpdate_frame
  intro c hc
  have h1 : (c + 1) * rows ≤ cols * rows := Nat.mul_le_mul_right rows hc
  rw [Nat.add_mul, Nat.one_mul] at h1
  omega

/-- Over a commutative ring the accumulation loop is the finite sum. -/
theorem dot_eq_sum {α : Type} [CommRing α] (n : Nat) (u v : Nat → α) :
    dot n u v = ∑ k in Finset.range n, u k * v k := by
  induction n with
  | zero => rfl
  | succ n ih =>
    rw [Finset.sum_range_succ, ← ih]
    rfl

/-- The scaling step: afterwards every coefficient of the map holds `beta` times its
old value, whichever of `setZero` and `*=` ran. -/
theorem scaled_block {α : Type} [CommRing α] [DecidableEq α] (beta : α) (C : Buf α)
    (rows cols r c : Nat) (hr : r < rows) (hc : c < cols) :
    (if beta = 0 then setZero C rows cols else mulAssign C rows cols beta) (c * rows + r)
      = beta * C (c * rows + r) := by
  by_cases hb : beta = 0
  · rw [if_pos hb, hb, zero_mul]
    exact mapUpdate_block C rows cols _ r c hr hc
  · rw [if_neg hb, mul_comm beta]
    exact mapUpdate_block C rows cols _ r c hr hc

/-- Reordering of the accumulated product: Eigen multiplies the maps of B and A, the
row-major reading has the factors of A first. -/
theorem gemm_sum_comm {α : Type} [CommRing α] (alpha beta c : α) (K : Nat) (u v : Nat → α) :
    beta * c + alpha * (∑ k in Finset.range K, v k * u k)
      = alpha * (∑ k in Finset.range K, u k * v k) + beta * c := by
  rw [add_comm]
  congr 2
  apply Finset.sum_congr rfl
  intro k _
  exact mul_comm _ _

/-- Entry (i, j) of the row-major result of the Eigen branch, in the order in which the
branch computes it: the scaled old value plus alpha times the product of the map of B
with the map of A. -/
theorem Gemm_entry {α : Type} [CommRing α] [DecidableEq α]
    (TransA TransB : CBLAS_TRANSPOSE)
    (hA : TransA = CblasNoTrans ∨ TransA = CblasTrans)
    (hB : TransB = CblasNoTrans ∨ TransB = CblasTrans)
    (M N K : Nat) (alpha beta : α) (A B C : Buf α) (i j : Nat) (hi : i < M) (hj : j < N) :
    (Math.Gemm TransA TransB M N K alpha A B beta C).mem (i * N + j)
      = beta * C (i * N + j) + alpha * (∑ k in Finset.range K,
          (if TransB = CblasNoTrans then B (k * N + j) else B (j * K + k)) *
          (if TransA = CblasNoTrans then A (i * K + k) else A (k * M + i))) := by
  rcases hA with hA | hA <;> rcases hB with hB | hB <;> subst hA <;> subst hB <;>
    simp only [Math.Gemm, addAssign] <;>
    rw [mapUpdate_block _ N M _ j i hj hi, scaled_block beta C N M j i hj hi] <;>
    simp only [MatExpr.scale, MatExpr.mul, MatExpr.transpose, ConstEigenMatrixMap,
      dot_eq_sum, if_true, if_false, reduceCtorEq]

/-- C1. Gemm on the Eigen path over exact arithmetic: for each of the four valid
(TransA, TransB) combinations no exception is thrown and, for all i < M and j < N,
C[i*N+j] = alpha * (sum over k < K of opA(i,k) * opB(k,j)) + beta * C_old[i*N+j], where
opA(i,k) is A[i*K+k] for CblasNoTrans and A[k*M+i] otherwise, and opB(k,j) is B[k*N+j]
for CblasNoTrans and B[j*K+k] otherwise. -/
theorem Gemm_eigen_correct {α : Type} [CommRing α] [DecidableEq α]
    (TransA TransB : CBLAS_TRANSPOSE)
    (hA : TransA = CblasNoTrans ∨ TransA = CblasTrans)
    (hB : TransB = CblasNoTrans ∨ TransB = CblasTrans)
    (M N K : Nat) (alpha beta : α) (A B C : Buf α) (i j : Nat) (hi : i < M) (hj : j < N) :
    (Math.Gemm TransA TransB M N K alpha A B beta C).thrown = none ∧
    (Math.Gemm TransA TransB M N K alpha A B beta C).mem (i * N + j)
      = alpha * (∑ k in Finset.range K,
          (if TransA = CblasNoTrans then A (i * K + k) else A (k * M + i)) *
          (if TransB = CblasNoTrans then B (k * N + j) else B (j * K + k)))
        + beta * C (i * N + j) := by
  constructor
  · rcases hA with hA | hA <;> rcases hB with hB | hB <;> subst hA <;> subst hB <;> rfl
  · rw [Gemm_entry TransA TransB hA hB M N K alpha beta A B C i j hi hj]
    exact gemm_sum_comm alpha beta (C (i * N + j)) K
      (fun k => if TransA = CblasNoTrans then A (i * K + k) else A (k * M + i))
      (fun k => if TransB = CblasNoTrans then B (k * N + j) else B (j * K + k))

/-- Witness of C1 on a 2 x 2 product over the integers (TransA = CblasNoTrans,
TransB = CblasTrans, alpha = 2, beta = 3): the entry C[1*2+0] is
2 * (A[2]*B[0] + A[3]*B[1]) + 3 * C_old[2] = 2 * (2*0 + 3*1) + 3 * 5 = 21. -/
theorem Gemm_eigen_correct_witness :
    ((1 < 2 ∧ 0 < 2) ∧
      (Math.Gemm CblasNoTrans CblasTrans 2 2 2 (2 : Int) (fun k => (k : Int))
        (fun k => (k : Int)) 3 (fun _ => 5)).mem (1 * 2 + 0) = 21) ∧
    ((Math.Gemm CblasNoTrans CblasTrans 2 2 2 (2 : Int) (fun k => (k : Int))
        (fun k => (k : Int)) 3 (fun _ => 5)).thrown = none ∧
      (Math.Gemm CblasNoTrans CblasTrans 2 2 2 (2 : Int) (fun k => (k : Int))
        (fun k => (k : Int)) 3 (fun _ => 5)).mem (1 * 2 + 0)
        = 2 * (∑ k in Finset.range 2,
            (if CblasNoTrans = CblasNoTrans then ((1 * 2 + k : Nat) : Int)
              else ((k * 2 + 1 : Nat) : Int)) *
            (if CblasTrans = CblasNoTrans then ((k * 2 + 0 : Nat) : Int)
              else ((0 * 2 + k : Nat) : Int)))
          + 3 * 5) :=
  ⟨⟨⟨by decide, by decide⟩, by decide⟩,
    Gemm_eigen_correct CblasNoTrans CblasTrans (Or.inl rfl) (Or.inr rfl) 2 2 2 2 3
      (fun k => (k : Int)) (fun k => (k : Int)) (fun _ => 5) 1 0 (by decide) (by decide)⟩

/-- Entry `i` of a vector map of length `n` receives `f i 0` of its previous value. -/
theorem vecUpdate_block {α : Type} (p : Buf α) (n : Nat) (f : Nat → Nat → α → α)
    (i : Nat) (hi : i < n) : mapUpdate p n 1 f i = f i 0 (p i) := by
  have h := mapUpdate_block p n 1 f i 0 hi Nat.zero_lt_one
  rw [Nat.zero_mul, Nat.zero_add] at h
  exact h

/-- Entries at or beyond the length of a vector map are not touched. -/
theorem vecUpdate_frame {α : Type} (p : Buf α) (n : Nat) (f : Nat → Nat → α → α)
    (i : Nat) (hi : n ≤ i) : mapUpdate p n 1 f i = p i :=
  mapUpdate_frame p n 1 f i (by omega)

/-- The scaling step on a vector map. -/
theorem scaled_vec {α : Type} [CommRing α] [DecidableEq α] (beta : α) (y : Buf α)
    (n i : Nat) (hi : i < n) :
    (if beta = 0 then setZero y n 1 else mulAssign y n 1 beta) i = beta * y i := by
  have h := scaled_block beta y n 1 i 0 hi Nat.zero_lt_one
  rw [Nat.zero_mul, Nat.zero_add] at h
  exact h

/-- The scaling step leaves the entries beyond the vector alone. -/
theorem scaled_vec_frame {α : Type} [Zero α] [Mul α] [DecidableEq α] (beta : α) (y : Buf α)
    (n i : Nat) (hi : n ≤ i) :
    (if beta = 0 then setZero y n 1 else mulAssign y n 1 beta) i = y i := by
  by_cases hb : beta = 0
  · rw [if_pos hb]
    exact vecUpdate_frame y n _ i hi
  · rw [if_neg hb]
    exact vecUpdate_frame y n _ i hi

/-- C2. Gemv on the Eigen path over exact arithmetic, A a row-major M x N matrix.
For CblasNoTrans nothing is thrown, y[i] = alpha * sum_{j<N} A[i*N+j]*x[j] + beta*y_old[i]
for i < M and y is untouched from offset M on (y has length M); for CblasTrans nothing
is thrown, y[j] = alpha * sum_{i<M} A[i*N+j]*x[i] + beta*y_old[j] for j < N and y is
untouched from offset N on; every other TransA value throws. -/
theorem Gemv_eigen_correct {α : Type} [CommRing α] [DecidableEq α]
    (M N : Nat) (alpha beta : α) (A x y : Buf α) :
    ((Math.Gemv CblasNoTrans M N alpha A x beta y).thrown = none ∧
      (∀ i, i < M → (Math.Gemv CblasNoTrans M N alpha A x beta y).mem i
        = alpha * (∑ j in Finset.range N, A (i * N + j) * x j) + beta * y i) ∧
      (∀ i, M ≤ i → (Math.Gemv CblasNoTrans M N alpha A x beta y).mem i = y i)) ∧
    ((Math.Gemv CblasTrans M N alpha A x beta y).thrown = none ∧
      (∀ j, j < N → (Math.Gemv CblasTrans M N alpha A x beta y).mem j
        = alpha * (∑ i in Finset.range M, A (i * N + j) * x i) + beta * y j) ∧
      (∀ j, N ≤ j → (Math.Gemv CblasTrans M N alpha A x beta y).mem j = y j)) ∧
    (∀ TransA, TransA ≠ CblasNoTrans → TransA ≠ CblasTrans →
      (Math.Gemv TransA M N alpha A x beta y).thrown ≠ none) := by
  refine ⟨⟨rfl, ?_, ?_⟩, ⟨rfl, ?_, ?_⟩, ?_⟩
  · intro i hi
    simp only [Math.Gemv, addAssign, if_true]
    rw [vecUpdate_block _ M _ i hi, scaled_vec beta y M i hi]
    simp only [MatExpr.scale, MatExpr.mul, MatExpr.transpose, ConstEigenMatrixMap,
      ConstEigenVectorMap, dot_eq_sum]
    rw [add_comm]
  · intro i hi
    simp only [Math.Gemv, addAssign, if_true]
    rw [vecUpdate_frame _ M _ i hi, scaled_vec_frame beta y M i hi]
  · intro j hj
    simp only [Math.Gemv, addAssign, reduceCtorEq, if_false]
    rw [vecUpdate_block _ N _ j hj, scaled_vec beta y N j hj]
    simp only [MatExpr.scale, MatExpr.mul, ConstEigenMatrixMap,
      ConstEigenVectorMap, dot_eq_sum]
    rw [add_comm]
  · intro j hj
    simp only [Math.Gemv, addAssign, reduceCtorEq, if_false]
    rw [vecUpdate_frame _ N _ j hj, scaled_vec_frame beta y N j hj]
  · intro TransA h1 h2
    cases TransA with
    | CblasNoTrans => exact absurd rfl h1
    | CblasTrans => exact absurd rfl h2
    | CblasConjTrans => simp [Math.Gemv]

/-- C4. With beta = 0 the result of Gemv on the Eigen path does not depend on the prior
contents of y, over any scalar type (no law of arithmetic is used, so a buffer holding
values that zero does not annihilate makes no difference): two runs that agree on TransA,
M, N, alpha, A and x throw alike and leave equal y vectors, whatever y1 and y2 held. -/
theorem Gemv_beta_zero_independent {α : Type} [Zero α] [Add α] [Mul α] [DecidableEq α]
    (TransA : CBLAS_TRANSPOSE) (M N : Nat) (alpha : α) (A x y1 y2 : Buf α) :
    (Math.Gemv TransA M N alpha A x 0 y1).thrown = (Math.Gemv TransA M N alpha A x 0 y2).thrown ∧
    ∀ i, i < (if TransA = CblasNoTrans then M else N) →
      (Math.Gemv TransA M N alpha A x 0 y1).mem i = (Math.Gemv TransA M N alpha A x 0 y2).mem i := by
  cases TransA with
  | CblasNoTrans =>
    refine ⟨rfl, ?_⟩
    intro i hi
    rw [if_pos rfl] at hi
    simp only [Math.Gemv, addAssign, setZero, if_true]
    rw [vecUpdate_block _ M _ i hi, vecUpdate_block _ M _ i hi,
      vecUpdate_block _ M _ i hi, vecUpdate_block _ M _ i hi]
  | CblasTrans =>
    refine ⟨rfl, ?_⟩
    intro i hi
    rw [if_neg (by decide)] at hi
    simp only [Math.Gemv, addAssign, setZero, reduceCtorEq, if_true, if_false]
    rw [vecUpdate_block _ N _ i hi, vecUpdate_block _ N _ i hi,
      vecUpdate_block _ N _ i hi, vecUpdate_block _ N _ i hi]
  | CblasConjTrans =>
    refine ⟨rfl, ?_⟩
    intro i hi
    rw [if_neg (by decide)] at hi
    simp only [Math.Gemv, setZero, reduceCtorEq, if_true, if_false]
    rw [vecUpdate_block _ N _ i hi, vecUpdate_block _ N _ i hi]

/-- A size below 2^31 survives the narrowing to `int`. -/
theorem toInt_natCast (n : Nat) (h : n < 2147483648) : toInt (n : Int) = (n : Int) := by
  unfold toInt
  omega

/-- Under the size bound the MKL-DNN branch is one pass over the N x M column-major
view of C, with the leading dimensions the branch computes. -/
theorem Gemm_USE_MKLDNN_eq {α : Type} [Zero α] [Add α] [Mul α]
    (TransA TransB : CBLAS_TRANSPOSE) (M N K : Nat)
    (hM : M < 2147483648) (hN : N < 2147483648) (hK : K < 2147483648)
    (alpha beta : α) (A B C : Buf α) :
    Math.Gemm_USE_MKLDNN TransA TransB M N K alpha A B beta C
      = ⟨mapUpdate C N M (fun i j c =>
          alpha * dot K
            (fun l => if (if TransB = CblasNoTrans then "N" else "T") = "N"
              then B (l * (if TransB = CblasTrans then K else N) + i)
              else B (i * (if TransB = CblasTrans then K else N) + l))
            (fun l => if (if TransA = CblasNoTrans then "N" else "T") = "N"
              then A (j * (if TransA = CblasTrans then M else K) + l)
              else A (l * (if TransA = CblasTrans then M else K) + j))
          + beta * c), none⟩ := by
  have hneg : ∀ n : Nat, ¬ ((n : Int) < 0) := fun n => by omega
  cases TransA <;> cases TransB <;>
    simp [Math.Gemm_USE_MKLDNN, mkldnn_sgemm, toInt_natCast _ hM, toInt_natCast _ hN,
      toInt_natCast _ hK, hneg, mapUpdate]

/-- The Eigen branch leaves C alone from offset M * N on. -/
theorem Gemm_frame {α : Type} [Zero α] [Add α] [Mul α] [DecidableEq α]
    (TransA TransB : CBLAS_TRANSPOSE) (M N K : Nat) (alpha beta : α) (A B C : Buf α)
    (k : Nat) (hk : M * N ≤ k) :
    (Math.Gemm TransA TransB M N K alpha A B beta C).mem k = C k := by
  have hs : (if beta = 0 then setZero C N M else mulAssign C N M beta) k = C k := by
    by_cases hb : beta = 0
    · rw [if_pos hb]
      exact mapUpdate_frame C N M _ k hk
    · rw [if_neg hb]
      exact mapUpdate_frame C N M _ k hk
  cases TransA <;> cases TransB <;> simp only [Math.Gemm, addAssign] <;>
    first
    | exact hs
    | (rw [mapUpdate_frame _ N M _ k hk]; exact hs)

/-- Entry (i, j) of the row-major result of the MKL-DNN branch under the size bound. -/
theorem Gemm_USE_MKLDNN_entry {α : Type} [CommRing α]
    (TransA TransB : CBLAS_TRANSPOSE)
    (hA : TransA = CblasNoTrans ∨ TransA = CblasTrans)
    (hB : TransB = CblasNoTrans ∨ TransB = CblasTrans)
    (M N K : Nat) (hM : M < 2147483648) (hN : N < 2147483648) (hK : K < 2147483648)
    (alpha beta : α) (A B C : Buf α) (i j : Nat) (hi : i < M) (hj : j < N) :
    (Math.Gemm_USE_MKLDNN TransA TransB M N K alpha A B beta C).mem (i * N + j)
      = alpha * (∑ k in Finset.range K,
          (if TransA = CblasNoTrans then A (i * K + k) else A (k * M + i)) *
          (if TransB = CblasNoTrans then B (k * N + j) else B (j * K + k)))
        + beta * C (i * N + j) := by
  rw [Gemm_USE_MKLDNN_eq TransA TransB M N K hM hN hK]
  simp only []
  rw [mapUpdate_block _ N M _ j i hj hi, dot_eq_sum]
  rcases hA with hA | hA <;> rcases hB with hB | hB <;> subst hA <;> subst hB <;>
    simp only [if_true, if_false, reduceCtorEq] <;>
    congr 2 <;>
    apply Finset.sum_congr rfl <;>
    intro k _ <;>
    simp [mul_comm]

/-- Supporting result for sizes that fit `int`: for M, N, K below 2^31 and both transpose
values of each operand, the MKL-DNN branch, calling the reference column-major sgemm as
sgemm(TransB, TransA, N, M, K, alpha, B, ldb, A, lda, beta, C, N) with
lda = (TransA == CblasTrans ? M : K) and ldb = (TransB == CblasTrans ? K : N), throws
nothing, leaves the same buffer C as the Eigen branch, and C read as a row-major M x N
matrix holds alpha*op(A)*op(B) + beta*C_old. The operand swap itself is right; only the
narrowing of the sizes is not. -/
theorem Gemm_mkldnn_refines_eigen {α : Type} [CommRing α] [DecidableEq α]
    (TransA TransB : CBLAS_TRANSPOSE)
    (hA : TransA = CblasNoTrans ∨ TransA = CblasTrans)
    (hB : TransB = CblasNoTrans ∨ TransB = CblasTrans)
    (M N K : Nat) (hM : M < 2147483648) (hN : N < 2147483648) (hK : K < 2147483648)
    (alpha beta : α) (A B C : Buf α) :
    (Math.Gemm_USE_MKLDNN TransA TransB M N K alpha A B beta C).thrown = none ∧
    (Math.Gemm_USE_MKLDNN TransA TransB M N K alpha A B beta C).mem
      = (Math.Gemm TransA TransB M N K alpha A B beta C).mem ∧
    ∀ i j, i < M → j < N →
      (Math.Gemm_USE_MKLDNN TransA TransB M N K alpha A B beta C).mem (i * N + j)
        = alpha * (∑ k in Finset.range K,
            (if TransA = CblasNoTrans then A (i * K + k) else A (k * M + i)) *
            (if TransB = CblasNoTrans then B (k * N + j) else B (j * K + k)))
          + beta * C (i * N + j) := by
  refine ⟨?_, ?_, ?_⟩
  · rw [Gemm_USE_MKLDNN_eq TransA TransB M N K hM hN hK]
  · funext k
    by_cases hk : k < M * N
    · have hNpos : 0 < N := by
        rcases Nat.eq_zero_or_pos N with h0 | h0
        · subst h0
          simp at hk
        · exact h0
      have hj : k % N < N := Nat.mod_lt k hNpos
      have hi : k / N < M := by
        apply Nat.div_lt_of_lt_mul
        rw [Nat.mul_comm]
        exact hk
      have hkeq : k = k / N * N + k % N := (Nat.div_add_mod' k N).symm
      rw [hkeq, Gemm_USE_MKLDNN_entry TransA TransB hA hB M N K hM hN hK alpha beta A B C
        (k / N) (k % N) hi hj,
        Gemm_entry TransA TransB hA hB M N K alpha beta A B C (k / N) (k % N) hi hj]
      exact (gemm_sum_comm alpha beta (C (k / N * N + k % N)) K
        (fun l => if TransA = CblasNoTrans then A (k / N * K + l) else A (l * M + k / N))
        (fun l => if TransB = CblasNoTrans then B (l * N + k % N) else B (k % N * K + l))).symm
    · have hk1 : M * N ≤ k := Nat.le_of_not_lt hk
      rw [Gemm_frame TransA TransB M N K alpha beta A B C k hk1,
        Gemm_USE_MKLDNN_eq TransA TransB M N K hM hN hK]
      dsimp only
      exact mapUpdate_frame C N M _ k hk1
  · intro i j hi hj
    exact Gemm_USE_MKLDNN_entry TransA TransB hA hB M N K hM hN hK alpha beta A B C i j hi hj

/-- The supporting result on a 2 x 2 product over the integers with TransA =
CblasTrans and TransB = CblasNoTrans; the entry C[0*2+1] evaluates to
2 * (A[0]*B[1] + A[2]*B[3]) + 3 * 5 = 2 * (0*1 + 2*3) + 15 = 27. -/
theorem Gemm_mkldnn_refines_eigen_witness :
    (((2 : Nat) < 2147483648) ∧
      (Math.Gemm_USE_MKLDNN CblasTrans CblasNoTrans 2 2 2 (2 : Int) (fun k => (k : Int))
        (fun k => (k : Int)) 3 (fun _ => 5)).mem (0 * 2 + 1) = 27) ∧
    ((Math.Gemm_USE_MKLDNN CblasTrans CblasNoTrans 2 2 2 (2 : Int) (fun k => (k : Int))
        (fun k => (k : Int)) 3 (fun _ => 5)).thrown = none ∧
      (Math.Gemm_USE_MKLDNN CblasTrans CblasNoTrans 2 2 2 (2 : Int) (fun k => (k : Int))
        (fun k => (k : Int)) 3 (fun _ => 5)).mem
        = (Math.Gemm CblasTrans CblasNoTrans 2 2 2 (2 : Int) (fun k => (k : Int))
            (fun k => (k : Int)) 3 (fun _ => 5)).mem ∧
      ∀ i j, i < 2 → j < 2 →
        (Math.Gemm_USE_MKLDNN CblasTrans CblasNoTrans 2 2 2 (2 : Int) (fun k => (k : Int))
          (fun k => (k : Int)) 3 (fun _ => 5)).mem (i * 2 + j)
          = 2 * (∑ k in Finset.range 2,
              (if CblasTrans = CblasNoTrans then ((i * 2 + k : Nat) : Int)
                else ((k * 2 + i : Nat) : Int)) *
              (if CblasNoTrans = CblasNoTrans then ((k * 2 + j : Nat) : Int)
                else ((j * 2 + k : Nat) : Int)))
            + 3 * 5) :=
  ⟨⟨by decide, by decide⟩,
    Gemm_mkldnn_refines_eigen CblasTrans CblasNoTrans (Or.inr rfl) (Or.inl rfl) 2 2 2
      (by decide) (by decide) (by decide) 2 3
      (fun k => (k : Int)) (fun k => (k : Int)) (fun _ => 5)⟩

/-- C3. The MKL-DNN branch of Gemm is meant to compute the same row-major result as the
Eigen branch, alpha*op(A)*op(B) + beta*C_old, for every M, N, K; the code misses this
for a size that does not fit `int`, which it narrows without a check. With M = 2^32,
N = K = 1, alpha = 1, beta = 0 and A, B all ones, `(int)M` is 0, so the column-major
routine is asked for an N x 0 result, nothing is thrown and nothing is written: C[0]
keeps its old value 0, while alpha*op(A)*op(B) + beta*C_old is 1 there and the Eigen
branch stores 1. -/
theorem Gemm_mkldnn_narrowing_counterexample :
    toInt (4294967296 : Nat) = 0 ∧
    (Math.Gemm_USE_MKLDNN CblasNoTrans CblasNoTrans 4294967296 1 1 (1 : Int)
      (fun _ => 1) (fun _ => 1) 0 (fun _ => 0)).thrown = none ∧
    (Math.Gemm_USE_MKLDNN CblasNoTrans CblasNoTrans 4294967296 1 1 (1 : Int)
      (fun _ => 1) (fun _ => 1) 0 (fun _ => 0)).mem (0 * 1 + 0) = 0 ∧
    (Math.Gemm CblasNoTrans CblasNoTrans 4294967296 1 1 (1 : Int)
      (fun _ => 1) (fun _ => 1) 0 (fun _ => 0)).mem (0 * 1 + 0) = 1 ∧
    (Math.Gemm_USE_MKLDNN CblasNoTrans CblasNoTrans 4294967296 1 1 (1 : Int)
      (fun _ => 1) (fun _ => 1) 0 (fun _ => 0)).mem (0 * 1 + 0)
      ≠ (1 : Int) * (∑ k in Finset.range 1,
          (if CblasNoTrans = CblasNoTrans then (fun _ => (1 : Int)) (0 * 1 + k)
            else (fun _ => (1 : Int)) (k * 4294967296 + 0)) *
          (if CblasNoTrans = CblasNoTrans then (fun _ => (1 : Int)) (k * 1 + 0)
            else (fun _ => (1 : Int)) (0 * 1 + k)))
        + 0 * (fun _ => (0 : Int)) (0 * 1 + 0) := by
  have hE := Gemm_entry CblasNoTrans CblasNoTrans (Or.inl rfl) (Or.inl rfl) 4294967296 1 1
    (1 : Int) 0 (fun _ => 1) (fun _ => 1) (fun _ => 0) 0 0 (by decide) (by decide)
  have hK : (Math.Gemm_USE_MKLDNN CblasNoTrans CblasNoTrans 4294967296 1 1 (1 : Int)
      (fun _ => 1) (fun _ => 1) 0 (fun _ => 0)).mem (0 * 1 + 0) = 0 := by decide
  refine ⟨by decide, by decide, hK, ?_, ?_⟩
  · rw [hE]
    simp
  · rw [hK]
    simp

/-- Pointwise form of a pass over a contiguous column-major map. -/
theorem mapUpdate_apply {α : Type} (p : Buf α) (rows cols : Nat) (f : Nat → Nat → α → α)
    (k : Nat) :
    mapUpdate p rows cols f k
      = if k < cols * rows then f (k % rows) (k / rows) (p k) else p k := by
  by_cases hk : k < cols * rows
  · rw [if_pos hk]
    have hpos : 0 < rows := by
      rcases Nat.eq_zero_or_pos rows with h0 | h0
      · subst h0
        simp at hk
      · exact h0
    have hr : k % rows < rows := Nat.mod_lt k hpos
    have hc : k / rows < cols := by
      apply Nat.div_lt_of_lt_mul
      rw [Nat.mul_comm]
      exact hk
    have h := mapUpdate_block p rows cols f (k % rows) (k / rows) hr hc
    rw [Nat.div_add_mod' k rows] at h
    exact h
  · rw [if_neg hk]
    exact mapUpdate_frame p rows cols f k (Nat.le_of_not_lt hk)

/-- C5. The three-buffer broadcast `FuncnameToRow` (AddToRow, SubToRow, MulToRow,
DivToRow for the operators +, -, *, /) treats a and y as row-major M x N matrices and b
as a row of length N: y[i*N+j] = a[i*N+j] expr b[j] for all i < M, j < N, for every
operator and element type; and the in-place two-buffer form leaves the same buffer as
the three-buffer form called with a = y. -/
theorem FuncnameToRow_correct {α : Type} (expr : α → α → α) (M N : Nat) (a b y : Buf α) :
    (∀ i j, i < M → j < N →
      Math.FuncnameToRow expr M N a b y (i * N + j) = expr (a (i * N + j)) (b j)) ∧
    Math.FuncnameToRow_inplace expr M N b y = Math.FuncnameToRow expr M N y b y := by
  constructor
  · intro i j hi hj
    simp only [Math.FuncnameToRow, assign]
    rw [mapUpdate_block _ N M _ j i hj hi]
    rfl
  · funext k
    simp only [Math.FuncnameToRow_inplace, Math.FuncnameToRow, assign, colwiseAssign]
    rw [mapUpdate_apply, mapUpdate_apply]
    by_cases hk : k < M * N
    · rw [if_pos hk, if_pos hk]
      simp only [MatExpr.colwise, ConstEigenArrayMap, ConstEigenVectorArrayMap]
      rw [Nat.div_add_mod' k N]
    · rw [if_neg hk, if_neg hk]

/-- Witness of C5 with integer division, M = 2, N = 3, a[k] = 10 * k, b = (1, 2, 5):
y[1*3+2] = a[5] / b[2] = 50 / 5 = 10. -/
theorem FuncnameToRow_correct_witness :
    Math.DivToRow 2 3 (fun k => (10 * k : Int)) (fun k => if k = 0 then 1 else if k = 1 then 2 else 5)
        (fun _ => 0) (1 * 3 + 2) = 10 ∧
      Math.FuncnameToRow (fun u v : Int => u / v) 2 3 (fun k => (10 * k : Int))
        (fun k => if k = 0 then 1 else if k = 1 then 2 else 5) (fun _ => 0) (1 * 3 + 2)
        = (10 * (1 * 3 + 2 : Nat) : Int) / (if 2 = 0 then 1 else if 2 = 1 then 2 else 5) :=
  ⟨by decide,
    (FuncnameToRow_correct (fun u v : Int => u / v) 2 3 (fun k => (10 * k : Int))
      (fun k => if k = 0 then 1 else if k = 1 then 2 else 5) (fun _ => 0)).1 1 2
      (by decide) (by decide)⟩

/-- C6. The in-place column broadcast `FuncnameToCol` (AddToCol, SubToCol, MulToCol,
DivToCol) treats y as a row-major M x N matrix and x as a column of length M: afterwards
y[i*N+j] = y_old[i*N+j] expr x[i] for all i < M, j < N, so that every element of row i
is combined with the same x[i]. -/
theorem FuncnameToCol_correct {α : Type} (expr : α → α → α) (M N : Nat) (x y : Buf α) :
    ∀ i j, i < M → j < N →
      Math.FuncnameToCol expr M N x y (i * N + j) = expr (y (i * N + j)) (x i) := by
  intro i j hi hj
  simp only [Math.FuncnameToCol, rowwiseAssign]
  rw [mapUpdate_block _ N M _ j i hj hi]
  rfl

/-- Witness of C6 with subtraction, M = 2, N = 3, y[k] = 10 * k, x = (1, 7):
y[1*3+2] = 50 - x[1] = 43. -/
theorem FuncnameToCol_correct_witness :
    Math.SubToCol 2 3 (fun k => if k = 0 then (1 : Int) else 7) (fun k => (10 * k : Int))
        (1 * 3 + 2) = 43 ∧
      Math.FuncnameToCol (fun u v : Int => u - v) 2 3 (fun k => if k = 0 then (1 : Int) else 7)
        (fun k => (10 * k : Int)) (1 * 3 + 2)
        = (10 * (1 * 3 + 2 : Nat) : Int) - (if 1 = 0 then (1 : Int) else 7) :=
  ⟨by decide,
    FuncnameToCol_correct (fun u v : Int => u - v) 2 3 (fun k => if k = 0 then (1 : Int) else 7)
      (fun k => (10 * k : Int)) 1 2 (by decide) (by decide)⟩

/-- After `n` channels the pointer has advanced by `n * image_size` and the memory is
one pass over the first `n` planes. -/
theorem BiasCHW_loop {α : Type} [Add α] (bias : Buf α) (image_size : Nat) (image : Buf α)
    (n : Nat) :
    forLoop n (fun c (s : Buf α × Nat) =>
      (forLoop image_size (fun i q => q.store (s.2 + i) (q (s.2 + i) + bias c)) s.1,
        s.2 + image_size)) (image, 0)
      = (mapUpdate image image_size n (fun _ c v => v + bias c), n * image_size) := by
  induction n with
  | zero => simp [forLoop, mapUpdate, stridedUpdate]
  | succ n ih =>
    simp only [forLoop] at ih ⊢
    rw [ih]
    simp only [mapUpdate, stridedUpdate, forLoop, Nat.add_mul, Nat.one_mul]

/-- C7. BiasCHW on the non-NEON path: afterwards image[c*image_size + i] =
image_old[c*image_size + i] + bias[c] for all c < bias_channels and i < image_size, and
every element at an index >= bias_channels*image_size is unchanged. -/
theorem BiasCHW_correct {α : Type} [Add α] (bias : Buf α) (bias_channels image_size : Nat)
    (image : Buf α) :
    (∀ c i, c < bias_channels → i < image_size →
      Math.BiasCHW bias bias_channels image_size image (c * image_size + i)
        = image (c * image_size + i) + bias c) ∧
    (∀ k, bias_channels * image_size ≤ k →
      Math.BiasCHW bias bias_channels image_size image k = image k) := by
  have h : Math.BiasCHW bias bias_channels image_size image
      = mapUpdate image image_size bias_channels (fun _ c v => v + bias c) := by
    unfold Math.BiasCHW
    simp only []
    rw [BiasCHW_loop]
  rw [h]
  constructor
  · intro c i hc hi
    exact mapUpdate_block image image_size bias_channels _ i c hi hc
  · intro k hk
    exact mapUpdate_frame image image_size bias_channels _ k hk

/-- Witness of C7 with two channels of three elements, image[k] = 10 * k and
bias = (1, 7): image[1*3+2] becomes 50 + 7 = 57 and image[6] stays 60. -/
theorem BiasCHW_correct_witness :
    (Math.BiasCHW (fun c => if c = 0 then (1 : Int) else 7) 2 3 (fun k => (10 * k : Int))
        (1 * 3 + 2) = 57 ∧
      Math.BiasCHW (fun c => if c = 0 then (1 : Int) else 7) 2 3 (fun k => (10 * k : Int)) 6
        = 60) ∧
    (Math.BiasCHW (fun c => if c = 0 then (1 : Int) else 7) 2 3 (fun k => (10 * k : Int))
        (1 * 3 + 2) = (10 * (1 * 3 + 2 : Nat) : Int) + (if 1 = 0 then (1 : Int) else 7) ∧
      Math.BiasCHW (fun c => if c = 0 then (1 : Int) else 7) 2 3 (fun k => (10 * k : Int)) 6
        = (10 * (6 : Nat) : Int)) :=
  ⟨⟨by decide, by decide⟩,
    (BiasCHW_correct (fun c => if c = 0 then (1 : Int) else 7) 2 3
      (fun k => (10 * k : Int))).1 1 2 (by decide) (by decide),
    (BiasCHW_correct (fun c => if c = 0 then (1 : Int) else 7) 2 3
      (fun k => (10 * k : Int))).2 6 (by decide)⟩

/-- Pointwise form of `memcpy`. -/
theorem memcpy_apply {α : Type} (dst : Buf α) (d : Nat) (src : Buf α) (s n k : Nat) :
    memcpy dst d src s n k = if d ≤ k ∧ k < d + n then src (s + (k - d)) else dst k :=
  rowLoop_apply n d (fun r _ => src (s + r)) dst k

/-- Without a callback the row loop of CopyMatrix is one pass over M rows of
`itemsize * N` bytes laid `ldb * itemsize` bytes apart. -/
theorem CopyMatrix_rows_eq {α : Type} (itemsize M N : Nat) (A : Buf α) (lda : Nat)
    (B : Buf α) (ldb : Nat) :
    Math.CopyMatrix_rows itemsize M N A lda B ldb none
      = stridedUpdate B (itemsize * N) M (ldb * itemsize)
          (fun r c _ => A (lda * c * itemsize + r)) := by
  unfold Math.CopyMatrix_rows stridedUpdate
  congr 1
  funext i q
  have e : ldb * i * itemsize = i * (ldb * itemsize) := by
    rw [Nat.mul_comm ldb i, Nat.mul_assoc]
  simp only [memcpy]
  rw [e]

/-- The coalesced branch: when lda = N and ldb = N the single memcpy of
`itemsize * N * M` bytes leaves the same buffer as the row-by-row loop. -/
theorem CopyMatrix_coalesced {α : Type} (itemsize M N : Nat) (A B : Buf α) :
    Math.CopyMatrix itemsize M N A N B N none
      = Math.CopyMatrix_rows itemsize M N A N B N none := by
  have hL : N * itemsize = itemsize * N := Nat.mul_comm N itemsize
  rw [CopyMatrix_rows_eq, hL]
  unfold Math.CopyMatrix
  rw [if_pos ⟨rfl, rfl⟩]
  funext k
  simp only []
  have hm := mapUpdate_apply B (itemsize * N) M (fun r c _ => A (N * c * itemsize + r)) k
  unfold mapUpdate at hm
  rw [hm, memcpy_apply]
  have hsz : itemsize * N * M = M * (itemsize * N) := Nat.mul_comm _ _
  by_cases hk : k < M * (itemsize * N)
  · rw [if_pos hk, if_pos ⟨Nat.zero_le k, by omega⟩]
    have e : N * (k / (itemsize * N)) * itemsize = k / (itemsize * N) * (itemsize * N) := by
      rw [Nat.mul_comm N (k / (itemsize * N)), Nat.mul_assoc, hL]
    rw [e, Nat.div_add_mod' k (itemsize * N), Nat.zero_add, Nat.sub_zero]
  · rw [if_neg hk, if_neg (by omega)]

/-- Whichever branch runs, CopyMatrix without a callback is the row-by-row pass. -/
theorem CopyMatrix_eq {α : Type} (itemsize M N : Nat) (A : Buf α) (lda : Nat)
    (B : Buf α) (ldb : Nat) :
    Math.CopyMatrix itemsize M N A lda B ldb none
      = stridedUpdate B (itemsize * N) M (ldb * itemsize)
          (fun r c _ => A (lda * c * itemsize + r)) := by
  rw [← CopyMatrix_rows_eq]
  by_cases h : lda = N ∧ ldb = N
  · rw [h.1, h.2]
    exact CopyMatrix_coalesced itemsize M N A B
  · unfold Math.CopyMatrix
    rw [if_neg h]

/-- C8. CopyMatrix with no typed-copy callback, in items of `itemsize` bytes: for every
M, N, every lda and every ldb >= N, afterwards item (i*ldb + j) of B equals item
(i*lda + j) of A for all i < M, j < N (byte by byte), every byte of B outside these
items (row padding and everything beyond the block) is unchanged, and when lda = N and
ldb = N the coalesced single copy leaves the same B as the row-by-row loop. -/
theorem CopyMatrix_correct {α : Type} (itemsize M N : Nat) (A : Buf α) (lda : Nat)
    (B : Buf α) (ldb : Nat) (hldb : N ≤ ldb) :
    (∀ i j t, i < M → j < N → t < itemsize →
      Math.CopyMatrix itemsize M N A lda B ldb none ((i * ldb + j) * itemsize + t)
        = A ((i * lda + j) * itemsize + t)) ∧
    (∀ k, (¬ ∃ i j t, i < M ∧ j < N ∧ t < itemsize ∧ k = (i * ldb + j) * itemsize + t) →
      Math.CopyMatrix itemsize M N A lda B ldb none k = B k) ∧
    (lda = N → ldb = N →
      Math.CopyMatrix itemsize M N A lda B ldb none
        = Math.CopyMatrix_rows itemsize M N A lda B ldb none) := by
  have hrows : itemsize * N ≤ ldb * itemsize := by
    rw [Nat.mul_comm itemsize N]
    exact Nat.mul_le_mul_right itemsize hldb
  refine ⟨?_, ?_, ?_⟩
  · intro i j t hi hj ht
    have hr : j * itemsize + t < itemsize * N := by
      have h1 : (j + 1) * itemsize ≤ N * itemsize := Nat.mul_le_mul_right itemsize hj
      rw [Nat.add_mul, Nat.one_mul, Nat.mul_comm N itemsize] at h1
      omega
    have hd : (i * ldb + j) * itemsize + t = i * (ldb * itemsize) + (j * itemsize + t) := by
      rw [Nat.add_mul, Nat.mul_assoc, Nat.add_assoc]
    have hs : lda * i * itemsize + (j * itemsize + t) = (i * lda + j) * itemsize + t := by
      rw [Nat.add_mul, Nat.mul_comm lda i, Nat.add_assoc]
    rw [CopyMatrix_eq, hd,
      stridedUpdate_block B (itemsize * N) (ldb * itemsize) _ hrows (j * itemsize + t) i hr M hi,
      hs]
  · intro k hk
    rw [CopyMatrix_eq]
    apply stridedUpdate_frame
    intro c hc hin
    apply hk
    have hpos : 0 < itemsize := by
      rcases Nat.eq_zero_or_pos itemsize with h0 | h0
      · rw [h0, Nat.zero_mul] at hin
        omega
      · exact h0
    refine ⟨c, (k - c * (ldb * itemsize)) / itemsize, (k - c * (ldb * itemsize)) % itemsize,
      hc, ?_, Nat.mod_lt _ hpos, ?_⟩
    · apply Nat.div_lt_of_lt_mul
      omega
    · have h1 := Nat.div_add_mod' (k - c * (ldb * itemsize)) itemsize
      rw [Nat.add_mul, Nat.mul_assoc, Nat.add_assoc, h1]
      omega
  · intro h1 h2
    rw [h1, h2]
    exact CopyMatrix_coalesced itemsize M N A B

/-- Witness of C8 with 2-byte items, M = N = 2, lda = 3, ldb = 4 over bytes A[k] = k and
B all 255: byte 1 of item 1*4+1 of B becomes byte 1 of item 1*3+1 of A, that is A[9] = 9,
and the padding byte 5 of B keeps 255. -/
theorem CopyMatrix_correct_witness :
    ((2 ≤ 4) ∧
      Math.CopyMatrix 2 2 2 (fun k => k) 3 (fun _ => 255) 4 none ((1 * 4 + 1) * 2 + 1) = 9 ∧
      Math.CopyMatrix 2 2 2 (fun k => k) 3 (fun _ => 255) 4 none 5 = 255) ∧
    ((∀ i j t, i < 2 → j < 2 → t < 2 →
      Math.CopyMatrix 2 2 2 (fun k => k) 3 (fun _ => 255) 4 none ((i * 4 + j) * 2 + t)
        = (i * 3 + j) * 2 + t) ∧
    (∀ k, (¬ ∃ i j t, i < 2 ∧ j < 2 ∧ t < 2 ∧ k = (i * 4 + j) * 2 + t) →
      Math.CopyMatrix 2 2 2 (fun k => k) 3 (fun _ => 255) 4 none k = 255) ∧
    ((3 : Nat) = 2 → (4 : Nat) = 2 →
      Math.CopyMatrix 2 2 2 (fun k => k) 3 (fun _ => 255) 4 none
        = Math.CopyMatrix_rows 2 2 2 (fun k => k) 3 (fun _ => 255) 4 none)) :=
  ⟨⟨by decide, by decide, by decide⟩,
    CopyMatrix_correct 2 2 2 (fun k => k) 3 (fun _ => 255) 4 (by decide)⟩

/-- The input loop gives up exactly when one of the first `n` inputs is absent. -/
theorem Sum_gather_eq_none (Input : Nat → Option mkl_dnn.Tensor) (n : Nat) :
    mkl_dnn.Sum.gather Input n = none ↔ ∃ i, i < n ∧ Input i = none := by
  induction n with
  | zero =>
    constructor
    · intro h
      simp [mkl_dnn.Sum.gather, forLoop] at h
    · rintro ⟨i, hi, _⟩
      omega
  | succ n ih =>
    unfold mkl_dnn.Sum.gather at ih ⊢
    simp only [forLoop]
    constructor
    · intro h
      cases hacc : forLoop n (fun i acc =>
          match acc with
          | none => none
          | some src_dims =>
            match Input i with
            | none => none
            | some X => some (src_dims ++ [X.Shape])) (some []) with
      | none =>
        obtain ⟨i, hi, hI⟩ := ih.mp hacc
        exact ⟨i, Nat.lt_succ_of_lt hi, hI⟩
      | some l =>
        rw [hacc] at h
        cases hIn : Input n with
        | none => exact ⟨n, Nat.lt_succ_self n, hIn⟩
        | some X =>
          rw [hIn] at h
          simp at h
    · rintro ⟨i, hi, hI⟩
      cases hacc : forLoop n (fun i acc =>
          match acc with
          | none => none
          | some src_dims =>
            match Input i with
            | none => none
            | some X => some (src_dims ++ [X.Shape])) (some []) with
      | none => rfl
      | some l =>
        have hin : i = n := by
          rcases Nat.lt_or_ge i n with hlt | hge
          · have hnone := ih.mpr ⟨i, hlt, hI⟩
            rw [hacc] at hnone
            simp at hnone
          · omega
        subst hin
        simp [hI]

/-- C9. The MKL-DNN Sum kernel dispatches on the input count n: for n = 0 it raises the
enforcement failure "Must have at least one input"; for n = 1 it returns what the CPU
Sum_6 kernel returns and obtains no MKL-DNN primitive; for n >= 2 it returns the FAIL
status "input count mismatch" if one of the n inputs is absent, and otherwise requests
output 0 with exactly the shape of input 0. -/
theorem Sum_Compute_dispatch (Input : Nat → Option mkl_dnn.Tensor) (cpu_Sum_6 : mkl_dnn.Status)
    (primitive : mkl_dnn.SumParams → mkl_dnn.PrimitiveOutcome) :
    (mkl_dnn.Sum.Compute 0 Input cpu_Sum_6 primitive).result
      = Except.error "MKLDNN Sum kernel: Must have at least one input" ∧
    ((mkl_dnn.Sum.Compute 1 Input cpu_Sum_6 primitive).result = Except.ok cpu_Sum_6 ∧
      ∀ p, mkl_dnn.KernelEvent.SumPrimitivePool_Get p
        ∉ (mkl_dnn.Sum.Compute 1 Input cpu_Sum_6 primitive).events) ∧
    (∀ n : Nat, 2 ≤ n →
      ((∃ i, i < n ∧ Input i = none) →
        (mkl_dnn.Sum.Compute (n : Int) Input cpu_Sum_6 primitive).result
          = Except.ok (mkl_dnn.Status.FAIL "input count mismatch")) ∧
      ((∀ i, i < n → Input i ≠ none) →
        ∃ X1, Input 0 = some X1 ∧
          mkl_dnn.KernelEvent.Output 0 X1.Shape
            ∈ (mkl_dnn.Sum.Compute (n : Int) Input cpu_Sum_6 primitive).events ∧
          ∀ k s, mkl_dnn.KernelEvent.Output k s
            ∈ (mkl_dnn.Sum.Compute (n : Int) Input cpu_Sum_6 primitive).events →
            k = 0 ∧ s = X1.Shape)) := by
  refine ⟨rfl, ⟨rfl, ?_⟩, ?_⟩
  · intro p hp
    simp [mkl_dnn.Sum.Compute] at hp
  · intro n hn
    have h0 : ¬ ¬ ((n : Int) > 0) := by omega
    have h1 : ¬ ((n : Int) = 1) := by omega
    constructor
    · intro hex
      have hg := (Sum_gather_eq_none Input n).mpr hex
      unfold mkl_dnn.Sum.Compute
      rw [if_neg h0, if_neg h1, Int.toNat_ofNat, hg]
      cases Input 0 <;> rfl
    · intro hall
      cases hX : Input 0 with
      | none => exact absurd hX (hall 0 (by omega))
      | some X1 =>
        refine ⟨X1, rfl, ?_⟩
        cases hg : mkl_dnn.Sum.gather Input n with
        | none =>
          obtain ⟨i, hi, hI⟩ := (Sum_gather_eq_none Input n).mp hg
          exact absurd hI (hall i hi)
        | some src_dims =>
          unfold mkl_dnn.Sum.Compute
          rw [if_neg h0, if_neg h1, Int.toNat_ofNat, hX, hg]
          simp

/-- C10 (amended). The MKL-DNN Relu kernel hands the call to the CPU Relu kernel exactly
when the input rank exceeds 5, and then obtains no primitive; for every rank from 1 to 5
it obtains the primitive with the source layout fixed by the rank alone, x, nc, ntc,
nchw, ncdhw for rank 1, 2, 3, 4, 5, so that every input of rank at least 1 that is not
delegated gets one of these five layouts; a rank-0 input is not delegated either and its
primitive gets the placeholder layout `any`. -/
theorem Relu_Compute_dispatch (X : mkl_dnn.Tensor) (cpu_Relu : mkl_dnn.Status)
    (primitive : mkl_dnn.TensorShape → mkl_dnn.format_tag → mkl_dnn.PrimitiveOutcome) :
    (mkl_dnn.KernelEvent.cpu_Compute ∈ (mkl_dnn.Relu.Compute X cpu_Relu primitive).events
      ↔ 5 < X.Shape.length) ∧
    (5 < X.Shape.length →
      (mkl_dnn.Relu.Compute X cpu_Relu primitive).result = Except.ok cpu_Relu ∧
      ∀ d f, mkl_dnn.KernelEvent.ReluPrimitivePool_Get d f
        ∉ (mkl_dnn.Relu.Compute X cpu_Relu primitive).events) ∧
    (X.Shape.length ≤ 5 →
      ∀ d f, mkl_dnn.KernelEvent.ReluPrimitivePool_Get d f
          ∈ (mkl_dnn.Relu.Compute X cpu_Relu primitive).events ↔
        d = X.Shape ∧
        f = (if X.Shape.length = 1 then mkl_dnn.format_tag.x
          else if X.Shape.length = 2 then mkl_dnn.format_tag.nc
          else if X.Shape.length = 3 then mkl_dnn.format_tag.ntc
          else if X.Shape.length = 4 then mkl_dnn.format_tag.nchw
          else if X.Shape.length = 5 then mkl_dnn.format_tag.ncdhw
          else mkl_dnn.format_tag.any)) := by
  have hfmt : mkl_dnn.ReluPrimitive.Initialize X.Shape
      = (if X.Shape.length = 1 then mkl_dnn.format_tag.x
          else if X.Shape.length = 2 then mkl_dnn.format_tag.nc
          else if X.Shape.length = 3 then mkl_dnn.format_tag.ntc
          else if X.Shape.length = 4 then mkl_dnn.format_tag.nchw
          else if X.Shape.length = 5 then mkl_dnn.format_tag.ncdhw
          else mkl_dnn.format_tag.any) := by
    unfold mkl_dnn.ReluPrimitive.Initialize
    split <;> simp_all
  refine ⟨?_, ?_, ?_⟩
  · by_cases h : X.Shape.length > 5
    · simp [mkl_dnn.Relu.Compute, h]
    · simp [mkl_dnn.Relu.Compute, h]
  · intro h
    simp [mkl_dnn.Relu.Compute, h]
  · intro h d f
    have h5 : ¬ (X.Shape.length > 5) := by omega
    rw [← hfmt]
    simp [mkl_dnn.Relu.Compute, h5]

/-- Witness of C10 (amended): a rank-4 input is not delegated and its primitive is
initialised with the layout nchw; a rank-6 input is handed to the CPU kernel. -/
theorem Relu_Compute_dispatch_witness :
    ((mkl_dnn.Relu.Compute ⟨[1, 3, 8, 8]⟩ mkl_dnn.Status.OK
        (fun _ _ => mkl_dnn.PrimitiveOutcome.computed)).events
      = [mkl_dnn.KernelEvent.Output 0 [1, 3, 8, 8],
          mkl_dnn.KernelEvent.ReluPrimitivePool_Get [1, 3, 8, 8] mkl_dnn.format_tag.nchw] ∧
      (mkl_dnn.Relu.Compute ⟨[1, 2, 3, 4, 5, 6]⟩ mkl_dnn.Status.OK
        (fun _ _ => mkl_dnn.PrimitiveOutcome.computed)).events
      = [mkl_dnn.KernelEvent.Output 0 [1, 2, 3, 4, 5, 6], mkl_dnn.KernelEvent.cpu_Compute]) ∧
    (mkl_dnn.KernelEvent.cpu_Compute ∈ (mkl_dnn.Relu.Compute ⟨[1, 2, 3, 4, 5, 6]⟩
        mkl_dnn.Status.OK (fun _ _ => mkl_dnn.PrimitiveOutcome.computed)).events
      ↔ 5 < ([1, 2, 3, 4, 5, 6] : List Int).length) :=
  ⟨⟨by decide, by decide⟩,
    (Relu_Compute_dispatch ⟨[1, 2, 3, 4, 5, 6]⟩ mkl_dnn.Status.OK
      (fun _ _ => mkl_dnn.PrimitiveOutcome.computed)).1⟩

/-- C10 as stated fails at rank 0: a scalar input is not handed to the CPU kernel
(0 > 5 is false), and the switch of Initialize on a size of 0 takes the default label, so
the primitive gets the layout `any`, which is none of x, nc, ntc, nchw, ncdhw. -/
theorem Relu_Compute_rank0_counterexample :
    mkl_dnn.KernelEvent.cpu_Compute
      ∉ (mkl_dnn.Relu.Compute ⟨[]⟩ mkl_dnn.Status.OK
          (fun _ _ => mkl_dnn.PrimitiveOutcome.computed)).events ∧
    (mkl_dnn.Relu.Compute ⟨[]⟩ mkl_dnn.Status.OK
        (fun _ _ => mkl_dnn.PrimitiveOutcome.computed)).events
      = [mkl_dnn.KernelEvent.Output 0 [],
          mkl_dnn.KernelEvent.ReluPrimitivePool_Get [] mkl_dnn.format_tag.any] ∧
    mkl_dnn.format_tag.any ∉ [mkl_dnn.format_tag.x, mkl_dnn.format_tag.nc,
      mkl_dnn.format_tag.ntc, mkl_dnn.format_tag.nchw, mkl_dnn.format_tag.ncdhw] := by
  decide

/-- Witness of C2 on the 2 x 3 matrix A[k] = k with x = (1, 1, 1), alpha = 2, beta = 3 and
y all 5: without transpose y[1] = 2 * (3 + 4 + 5) + 15 = 39 and y[2] keeps 5; with x read
as a vector of length 2 and transpose, y[2] = 2 * (2 + 5) + 15 = 29. -/
theorem Gemv_eigen_correct_witness :
    ((Math.Gemv CblasNoTrans 2 3 (2 : Int) (fun k => (k : Int)) (fun _ => 1) 3
        (fun _ => 5)).mem 1 = 39 ∧
      (Math.Gemv CblasNoTrans 2 3 (2 : Int) (fun k => (k : Int)) (fun _ => 1) 3
        (fun _ => 5)).mem 2 = 5 ∧
      (Math.Gemv CblasTrans 2 3 (2 : Int) (fun k => (k : Int)) (fun _ => 1) 3
        (fun _ => 5)).mem 2 = 29) ∧
    (Math.Gemv CblasNoTrans 2 3 (2 : Int) (fun k => (k : Int)) (fun _ => 1) 3
        (fun _ => 5)).mem 1
      = 2 * (∑ j in Finset.range 3, ((1 * 3 + j : Nat) : Int) * 1) + 3 * 5 :=
  ⟨⟨by decide, by decide, by decide⟩,
    (Gemv_eigen_correct 2 3 (2 : Int) 3 (fun k => (k : Int)) (fun _ => 1)
      (fun _ => 5)).1.2.1 1 (by decide)⟩

/-- Witness of C4: with beta = 0 the runs started from y all 5 and from y all -7 both
leave y[1] = 2 * (3 + 4 + 5) = 24. -/
theorem Gemv_beta_zero_independent_witness :
    ((Math.Gemv CblasNoTrans 2 3 (2 : Int) (fun k => (k : Int)) (fun _ => 1) 0
        (fun _ => 5)).mem 1 = 24 ∧
      (Math.Gemv CblasNoTrans 2 3 (2 : Int) (fun k => (k : Int)) (fun _ => 1) 0
        (fun _ => -7)).mem 1 = 24) ∧
    (Math.Gemv CblasNoTrans 2 3 (2 : Int) (fun k => (k : Int)) (fun _ => 1) 0
        (fun _ => 5)).mem 1
      = (Math.Gemv CblasNoTrans 2 3 (2 : Int) (fun k => (k : Int)) (fun _ => 1) 0
        (fun _ => -7)).mem 1 :=
  ⟨⟨by decide, by decide⟩,
    (Gemv_beta_zero_independent CblasNoTrans 2 3 (2 : Int) (fun k => (k : Int)) (fun _ => 1)
      (fun _ => 5) (fun _ => -7)).2 1 (by decide)⟩

/-- Witness of C9 with two inputs: when both are present the only output request carries
the shape [2, 3] of input 0; when input 1 is absent the kernel returns the FAIL status. -/
theorem Sum_Compute_dispatch_witness :
    ((mkl_dnn.Sum.Compute 2 (fun i => if i = 0 then some ⟨[2, 3]⟩ else some ⟨[1, 3]⟩)
        mkl_dnn.Status.OK (fun _ => mkl_dnn.PrimitiveOutcome.computed)).events
      = [mkl_dnn.KernelEvent.Output 0 [2, 3],
          mkl_dnn.KernelEvent.SumPrimitivePool_Get ⟨[[2, 3], [1, 3]], [2, 3], 2, 2⟩]) ∧
    ((∃ i, i < 2 ∧ (fun i => if i = 0 then some (⟨[2, 3]⟩ : mkl_dnn.Tensor) else none) i = none) →
      (mkl_dnn.Sum.Compute ((2 : Nat) : Int) (fun i => if i = 0 then some ⟨[2, 3]⟩ else none)
        mkl_dnn.Status.OK (fun _ => mkl_dnn.PrimitiveOutcome.computed)).result
        = Except.ok (mkl_dnn.Status.FAIL "input count mismatch")) :=
  ⟨by decide,
    ((Sum_Compute_dispatch (fun i => if i = 0 then some ⟨[2, 3]⟩ else none)
      mkl_dnn.Status.OK (fun _ => mkl_dnn.PrimitiveOutcome.computed)).2.2 2 (by decide)).1⟩

/-- The comparison loop on indices that are all in range: it runs through exactly when
the first `n` kernel dimensions equal the dimensions of W from index 2 on, and otherwise
returns at the first index where they differ; it never reads outside W. -/
theorem Conv_check_kernel_shape_spec (kernel_shape W_dims : mkl_dnn.TensorShape) (n : Nat)
    (hk : n ≤ kernel_shape.length) (hw : n + 2 ≤ W_dims.length) :
    (mkl_dnn.Conv.check_kernel_shape kernel_shape W_dims n = none →
      ∀ i, i < n → kernel_shape.get? i = W_dims.get? (i + 2)) ∧
    (∀ r, mkl_dnn.Conv.check_kernel_shape kernel_shape W_dims n = some r →
      ∃ i, i < n ∧ r = mkl_dnn.ConvReturn.shape_mismatch i ∧
        kernel_shape.get? i ≠ W_dims.get? (i + 2) ∧
        ∀ j, j < i → kernel_shape.get? j = W_dims.get? (j + 2)) := by
  induction n with
  | zero =>
    constructor
    · intro _ i hi
      omega
    · intro r hr
      simp [mkl_dnn.Conv.check_kernel_shape, forLoop] at hr
  | succ n ih =>
    have ih1 := ih (by omega) (by omega)
    have hkn : n < kernel_shape.length := by omega
    have hwn : n + 2 < W_dims.length := by omega
    have ek : kernel_shape.get? n = some (kernel_shape.get ⟨n, hkn⟩) := List.get?_eq_get hkn
    have ew : W_dims.get? (n + 2) = some (W_dims.get ⟨n + 2, hwn⟩) := List.get?_eq_get hwn
    unfold mkl_dnn.Conv.check_kernel_shape at ih1 ⊢
    simp only [forLoop]
    cases hacc : forLoop n (fun i acc =>
        match acc with
        | some r => some r
        | none =>
          match kernel_shape.get? i, W_dims.get? (i + 2) with
          | some k, some w => if k ≠ w then some (mkl_dnn.ConvReturn.shape_mismatch i) else none
          | _, _ => some (mkl_dnn.ConvReturn.index_out_of_range i)) none with
    | some r0 =>
      rw [hacc] at ih1
      constructor
      · intro h
        simp at h
      · intro r hr
        simp only [Option.some.injEq] at hr
        obtain ⟨i, hi, h1, h2, h3⟩ := ih1.2 r0 rfl
        exact ⟨i, Nat.lt_succ_of_lt hi, hr ▸ h1, h2, h3⟩
    | none =>
      rw [hacc] at ih1
      have hall := ih1.1 rfl
      simp only [ek, ew]
      by_cases hne : kernel_shape.get ⟨n, hkn⟩ ≠ W_dims.get ⟨n + 2, hwn⟩
      · rw [if_pos hne]
        constructor
        · intro h
          simp at h
        · intro r hr
          simp only [Option.some.injEq] at hr
          refine ⟨n, Nat.lt_succ_self n, hr.symm, ?_, hall⟩
          rw [ek, ew]
          intro h
          exact hne (Option.some.inj h)
      · rw [if_neg hne]
        constructor
        · intro _ i hi
          rcases Nat.lt_or_ge i n with hlt | hge
          · exact hall i hlt
          · have hin : i = n := by omega
            subst hin
            rw [ek, ew]
            have heq : kernel_shape.get ⟨i, hkn⟩ = W_dims.get ⟨i + 2, hwn⟩ := by
              by_contra hc
              exact hne hc
            rw [heq]
        · intro r hr
          simp at hr

/-- C11 (amended). MKL-DNN Conv, given that ValidateInputShape and ComputeKernelShape
succeed and yield kernel_shape of rank r. If r > 3 the kernel returns the result of the
CPU Conv implementation without any further check. If r <= 3 its kernel-shape validation
returns a FAIL status if and only if r + 2 != rank(W) or there is an i < r with
kernel_shape[i] != W.shape[i+2]: the rank mismatch is reported in preference, a dimension
mismatch is reported at the first differing index, and when neither holds the kernel
returns what the remainder of Compute returns. The index i+2 into the shape of W is
within range whenever it is evaluated. -/
theorem Conv_Compute_validation (W : mkl_dnn.Tensor) (kernel_shape : mkl_dnn.TensorShape)
    (cpu_Conv rest : mkl_dnn.Status) :
    (3 < kernel_shape.length →
      mkl_dnn.Conv.Compute W mkl_dnn.Status.OK (mkl_dnn.Status.OK, kernel_shape) cpu_Conv rest
        = mkl_dnn.ConvReturn.cpu_Compute cpu_Conv) ∧
    (kernel_shape.length ≤ 3 →
      (kernel_shape.length + 2 ≠ W.Shape.length →
        mkl_dnn.Conv.Compute W mkl_dnn.Status.OK (mkl_dnn.Status.OK, kernel_shape) cpu_Conv rest
          = mkl_dnn.ConvReturn.num_dims_mismatch) ∧
      (kernel_shape.length + 2 = W.Shape.length →
        (∃ i, i < kernel_shape.length ∧ kernel_shape.get? i ≠ W.Shape.get? (i + 2)) →
        ∃ i, i < kernel_shape.length ∧
          mkl_dnn.Conv.Compute W mkl_dnn.Status.OK (mkl_dnn.Status.OK, kernel_shape) cpu_Conv rest
            = mkl_dnn.ConvReturn.shape_mismatch i ∧
          kernel_shape.get? i ≠ W.Shape.get? (i + 2) ∧
          ∀ j, j < i → kernel_shape.get? j = W.Shape.get? (j + 2)) ∧
      (kernel_shape.length + 2 = W.Shape.length →
        (∀ i, i < kernel_shape.length → kernel_shape.get? i = W.Shape.get? (i + 2)) →
        mkl_dnn.Conv.Compute W mkl_dnn.Status.OK (mkl_dnn.Status.OK, kernel_shape) cpu_Conv rest
          = mkl_dnn.ConvReturn.rest rest) ∧
      ((mkl_dnn.Conv.Compute W mkl_dnn.Status.OK (mkl_dnn.Status.OK, kernel_shape) cpu_Conv rest
            = mkl_dnn.ConvReturn.num_dims_mismatch ∨
          ∃ i, mkl_dnn.Conv.Compute W mkl_dnn.Status.OK (mkl_dnn.Status.OK, kernel_shape)
            cpu_Conv rest = mkl_dnn.ConvReturn.shape_mismatch i) ↔
        (kernel_shape.length + 2 ≠ W.Shape.length ∨
          ∃ i, i < kernel_shape.length ∧ kernel_shape.get? i ≠ W.Shape.get? (i + 2)))) ∧
    (∀ i, mkl_dnn.Conv.Compute W mkl_dnn.Status.OK (mkl_dnn.Status.OK, kernel_shape) cpu_Conv rest
      ≠ mkl_dnn.ConvReturn.index_out_of_range i) := by
  have hOK : ¬ (mkl_dnn.Status.OK ≠ mkl_dnn.Status.OK) := fun h => h rfl
  have hbig : 3 < kernel_shape.length →
      mkl_dnn.Conv.Compute W mkl_dnn.Status.OK (mkl_dnn.Status.OK, kernel_shape) cpu_Conv rest
        = mkl_dnn.ConvReturn.cpu_Compute cpu_Conv := by
    intro h
    unfold mkl_dnn.Conv.Compute
    simp only [hOK, if_false]
    rw [if_pos h]
  have hrank : kernel_shape.length ≤ 3 → kernel_shape.length + 2 ≠ W.Shape.length →
      mkl_dnn.Conv.Compute W mkl_dnn.Status.OK (mkl_dnn.Status.OK, kernel_shape) cpu_Conv rest
        = mkl_dnn.ConvReturn.num_dims_mismatch := by
    intro h3 hne
    unfold mkl_dnn.Conv.Compute
    simp only [hOK, if_false]
    rw [if_neg (by omega), if_pos hne]
  have hloop : kernel_shape.length ≤ 3 → kernel_shape.length + 2 = W.Shape.length →
      mkl_dnn.Conv.Compute W mkl_dnn.Status.OK (mkl_dnn.Status.OK, kernel_shape) cpu_Conv rest
        = (match mkl_dnn.Conv.check_kernel_shape kernel_shape W.Shape kernel_shape.length with
          | some r => r
          | none => mkl_dnn.ConvReturn.rest rest) := by
    intro h3 heq
    unfold mkl_dnn.Conv.Compute
    simp only [hOK, if_false]
    rw [if_neg (by omega), if_neg (fun hne => hne heq)]
  have hspec : kernel_shape.length + 2 = W.Shape.length →
      (mkl_dnn.Conv.check_kernel_shape kernel_shape W.Shape kernel_shape.length = none →
        ∀ i, i < kernel_shape.length → kernel_shape.get? i = W.Shape.get? (i + 2)) ∧
      (∀ r, mkl_dnn.Conv.check_kernel_shape kernel_shape W.Shape kernel_shape.length = some r →
        ∃ i, i < kernel_shape.length ∧ r = mkl_dnn.ConvReturn.shape_mismatch i ∧
          kernel_shape.get? i ≠ W.Shape.get? (i + 2) ∧
          ∀ j, j < i → kernel_shape.get? j = W.Shape.get? (j + 2)) := fun heq =>
    Conv_check_kernel_shape_spec kernel_shape W.Shape kernel_shape.length
      (Nat.le_refl _) (Nat.le_of_eq heq)
  refine ⟨hbig, fun h3 => ⟨hrank h3, ?_, ?_, ?_⟩, ?_⟩
  · rintro heq ⟨i0, hi0, hne0⟩
    rw [hloop h3 heq]
    cases hc : mkl_dnn.Conv.check_kernel_shape kernel_shape W.Shape kernel_shape.length with
    | none => exact absurd ((hspec heq).1 hc i0 hi0) hne0
    | some r =>
      obtain ⟨i, hi, hr, h1, h2⟩ := (hspec heq).2 r hc
      exact ⟨i, hi, hr, h1, h2⟩
  · intro heq hall
    rw [hloop h3 heq]
    cases hc : mkl_dnn.Conv.check_kernel_shape kernel_shape W.Shape kernel_shape.length with
    | none => rfl
    | some r =>
      obtain ⟨i, hi, _, h1, _⟩ := (hspec heq).2 r hc
      exact absurd (hall i hi) h1
  · by_cases heq : kernel_shape.length + 2 = W.Shape.length
    · rw [hloop h3 heq]
      cases hc : mkl_dnn.Conv.check_kernel_shape kernel_shape W.Shape kernel_shape.length with
      | none =>
        have hall := (hspec heq).1 hc
        constructor
        · rintro (h | ⟨i, h⟩)
          · exact absurd h (by simp)
          · exact absurd h (by simp)
        · rintro (h | ⟨i, hi, hne⟩)
          · exact absurd heq h
          · exact absurd (hall i hi) hne
      | some r =>
        obtain ⟨i, hi, hr, h1, _⟩ := (hspec heq).2 r hc
        constructor
        · intro _
          exact Or.inr ⟨i, hi, h1⟩
        · intro _
          exact Or.inr ⟨i, hr⟩
    · rw [hrank h3 heq]
      constructor
      · intro _
        exact Or.inl heq
      · intro _
        exact Or.inl rfl
  · intro i
    by_cases h3 : 3 < kernel_shape.length
    · rw [hbig h3]
      simp
    · by_cases heq : kernel_shape.length + 2 = W.Shape.length
      · rw [hloop (by omega) heq]
        cases hc : mkl_dnn.Conv.check_kernel_shape kernel_shape W.Shape kernel_shape.length with
        | none => simp
        | some r =>
          obtain ⟨i1, _, hr, _, _⟩ := (hspec heq).2 r hc
          rw [hr]
          simp
      · rw [hrank (by omega) heq]
        simp

/-- Witness of C11 (amended) with W of shape [8, 4, 3, 3]: kernel_shape [3, 5] differs
at index 1, so the kernel returns the FAIL status of the dimension check there;
kernel_shape [3] has the wrong rank and gets the FAIL status of the rank check;
kernel_shape [3, 3, 3, 3] is handed to the CPU kernel. -/
theorem Conv_Compute_validation_witness :
    (mkl_dnn.Conv.Compute ⟨[8, 4, 3, 3]⟩ mkl_dnn.Status.OK (mkl_dnn.Status.OK, [3, 5])
        mkl_dnn.Status.OK mkl_dnn.Status.OK = mkl_dnn.ConvReturn.shape_mismatch 1 ∧
      (mkl_dnn.Conv.Compute ⟨[8, 4, 3, 3]⟩ mkl_dnn.Status.OK (mkl_dnn.Status.OK, [3, 5])
        mkl_dnn.Status.OK mkl_dnn.Status.OK).status
        = some (mkl_dnn.Status.FAIL "kernel_shape is not compatible with W shape.") ∧
      (mkl_dnn.Conv.Compute ⟨[8, 4, 3, 3]⟩ mkl_dnn.Status.OK (mkl_dnn.Status.OK, [3])
        mkl_dnn.Status.OK mkl_dnn.Status.OK).status
        = some (mkl_dnn.Status.FAIL "kernel_shape num_dims is not compatible with W num_dims.") ∧
      mkl_dnn.Conv.Compute ⟨[8, 4, 3, 3]⟩ mkl_dnn.Status.OK (mkl_dnn.Status.OK, [3, 3, 3, 3])
        (mkl_dnn.Status.FAIL "cpu") mkl_dnn.Status.OK
        = mkl_dnn.ConvReturn.cpu_Compute (mkl_dnn.Status.FAIL "cpu")) ∧
    (∀ i, mkl_dnn.Conv.Compute ⟨[8, 4, 3, 3]⟩ mkl_dnn.Status.OK (mkl_dnn.Status.OK, [3, 5])
        mkl_dnn.Status.OK mkl_dnn.Status.OK ≠ mkl_dnn.ConvReturn.index_out_of_range i) :=
  ⟨by decide,
    (Conv_Compute_validation ⟨[8, 4, 3, 3]⟩ [3, 5] mkl_dnn.Status.OK mkl_dnn.Status.OK).2.2⟩

/-- C11 as stated fails in the "only if" direction: with W of shape [8, 4, 3, 3] and
kernel_shape [3, 3] the rank is 2 <= 3, 2 + 2 equals the rank of W and no dimension
differs, yet the kernel returns a FAIL status whenever the remainder of Compute does
(here the output-shape inference rejecting the input). -/
theorem Conv_Compute_later_fail_counterexample :
    ([3, 3] : mkl_dnn.TensorShape).length ≤ 3 ∧
    (mkl_dnn.Conv.Compute ⟨[8, 4, 3, 3]⟩ mkl_dnn.Status.OK (mkl_dnn.Status.OK, [3, 3])
        mkl_dnn.Status.OK (mkl_dnn.Status.FAIL "Invalid input shape")).status
      = some (mkl_dnn.Status.FAIL "Invalid input shape") ∧
    ¬ (([3, 3] : mkl_dnn.TensorShape).length + 2 ≠ ([8, 4, 3, 3] : mkl_dnn.TensorShape).length ∨
      ∃ i, i < ([3, 3] : mkl_dnn.TensorShape).length ∧
        ([3, 3] : mkl_dnn.TensorShape).get? i ≠ ([8, 4, 3, 3] : mkl_dnn.TensorShape).get? (i + 2)) := by
  refine ⟨by decide, by decide, ?_⟩
  rintro (h | ⟨i, hi, hne⟩)
  · exact h rfl
  · have hi2 : i < 2 := hi
    rcases Nat.lt_or_ge i 1 with h0 | h1
    · have : i = 0 := by omega
      subst this
      exact hne rfl
    · have : i = 1 := by omega
      subst this
      exact hne rfl

end onnxruntime
